import Mathlib

/-
Verification model of the plugin updater (src/main.py).

The embedding is shallow and executable: every Python operation the claims
depend on is translated to a structurally recursive Lean function so that the
kernel can evaluate it on concrete inputs.  Python dicts become insertion
ordered association lists with overwrite-in-place semantics, JSON values
become an inductive type, exceptions become an explicit error type, and the
file system / network / log become explicit state and an event trace.
-/

namespace PluginUpdaterModel

/-- Python semantics of s.split(sep) for a one-character separator, on
character lists: separators delimit (possibly empty) fields, and the result
always has at least one element. -/
def splitChar (sep : Char) : List Char → List (List Char)
  | [] => [[]]
  | c :: rest =>
    match splitChar sep rest with
    | [] => [[c]]
    | h :: t => if c = sep then [] :: h :: t else (c :: h) :: t

/-- Python s.split(sep) for a one-character separator. -/
def pySplit (sep : Char) (s : String) : List String :=
  (splitChar sep s.data).map (fun l => String.mk l)

/-- Python s.lower(). -/
def pyLower (s : String) : String := String.mk (s.data.map Char.toLower)

/-- Does needle occur at the start of hay? -/
def leadsWith : List Char → List Char → Bool
  | [], _ => true
  | _ :: _, [] => false
  | a :: as, b :: bs => a == b && leadsWith as bs

/-- Does needle occur anywhere in hay (Python `needle in hay`)? -/
def hasSub (needle : List Char) : List Char → Bool
  | [] => leadsWith needle []
  | c :: rest => leadsWith needle (c :: rest) || hasSub needle rest

/-- Python `tok in s` on strings. -/
def containsTok (s tok : String) : Bool := hasSub tok.data s.data

/-- Remove needle from the front of a list, if it is there. -/
def stripPfx : List Char → List Char → Option (List Char)
  | [], s => some s
  | _ :: _, [] => none
  | p :: ps, c :: cs => if p == c then stripPfx ps cs else none

/-- Fuelled kernel of pyReplace; fuel larger than the input length makes it
total while keeping the recursion structural. -/
def replaceFuel (pat rep : List Char) : Nat → List Char → List Char
  | _, [] => []
  | 0, s => s
  | fuel + 1, c :: rest =>
    match stripPfx pat (c :: rest) with
    | some rem => rep ++ replaceFuel pat rep fuel rem
    | none => c :: replaceFuel pat rep fuel rest

/-- Python s.replace(pat, rep) (all occurrences, left to right, for the
nonempty patterns the program uses). -/
def pyReplace (s pat rep : String) : String :=
  String.mk (replaceFuel pat.data rep.data (s.data.length + 1) s.data)

/-- Python dict lookup: dict items carry at most one binding per key, the
first match wins. -/
def pyGet {α β : Type} [DecidableEq α] : List (α × β) → α → Option β
  | [], _ => none
  | (k, v) :: rest, key => if k = key then some v else pyGet rest key

/-- Python dict assignment d[key] = v: overwrite in place keeping the key's
position, append when the key is new. -/
def pySet {α β : Type} [DecidableEq α] : List (α × β) → α → β → List (α × β)
  | [], key, v => [(key, v)]
  | (k, w) :: rest, key, v =>
    if k = key then (key, v) :: rest else (k, w) :: pySet rest key v

/-- Parsed JSON as the program consumes it (response.json() and the ledger
file; null and booleans never reach the modelled paths). -/
inductive Json where
  | num (n : Int)
  | str (s : String)
  | arr (elems : List Json)
  | obj (fields : List (String × Json))

mutual
/-- Python equality on JSON values. -/
def Json.beq : Json → Json → Bool
  | .num a, .num b => a == b
  | .str a, .str b => a == b
  | .arr a, .arr b => jListBeq a b
  | .obj a, .obj b => jObjBeq a b
  | _, _ => false
/-- Python equality on JSON lists. -/
def jListBeq : List Json → List Json → Bool
  | [], [] => true
  | a :: as, b :: bs => Json.beq a b && jListBeq as bs
  | _, _ => false
/-- Python equality on JSON objects (order-sensitive only in the way the
program can observe: the ledger is rebuilt in insertion order). -/
def jObjBeq : List (String × Json) → List (String × Json) → Bool
  | [], [] => true
  | (k1, v1) :: as, (k2, v2) :: bs => k1 == k2 && Json.beq v1 v2 && jObjBeq as bs
  | _, _ => false
end

/-- Python `get(file) != version` where the left side may be None (absent):
None differs from every JSON value. -/
def pyNeq (cur : Option Json) (v : Json) : Bool :=
  match cur with
  | none => true
  | some w => ! Json.beq w v

/-- Python exception classes the modelled paths can raise; json.JSONDecodeError
is a subclass of ValueError (not of IOError). -/
inductive PyErr where
  | keyError
  | indexError
  | typeError
  | valueError
  | stopIteration
  | ioError
deriving DecidableEq

/-- Python x[k] for a string subscript: JSON objects are string-keyed dicts
(KeyError when absent); subscripting a list or number with a string raises
TypeError, as does a string. -/
def Json.sub (j : Json) (k : String) : Except PyErr Json :=
  match j with
  | .obj l =>
    match pyGet l k with
    | some v => .ok v
    | none => .error .keyError
  | _ => .error .typeError

/-- Python x[i] for an integer subscript: lists index with one negative wrap
(IndexError out of range), strings yield a one-character string, JSON objects
raise KeyError (their keys are strings), numbers raise TypeError. -/
def Json.subIdx (j : Json) (i : Int) : Except PyErr Json :=
  match j with
  | .arr l =>
    let k : Int := if i < 0 then i + l.length else i
    if h : 0 ≤ k ∧ k.toNat < l.length then .ok (l.get ⟨k.toNat, h.2⟩)
    else .error .indexError
  | .str s =>
    let k : Int := if i < 0 then i + s.data.length else i
    if h : 0 ≤ k ∧ k.toNat < s.data.length then .ok (.str (String.mk [s.data.get ⟨k.toNat, h.2⟩]))
    else .error .indexError
  | .obj _ => .error .keyError
  | .num _ => .error .typeError

/-- A dict key as the loops `for i, file in files.items()` see it. -/
inductive JKey where
  | idx (i : Int)
  | key (s : String)
deriving DecidableEq

/-- Python x[k] for either kind of key. -/
def Json.subKey (j : Json) : JKey → Except PyErr Json
  | .idx i => j.subIdx i
  | .key s => j.sub s

/-- Shape of a catalog entry's files value as Python sees it: a str, a dict
from int to str (the recognized index map), any other str-keyed dict (which
still passes the `type(files) in (str, dict)` check at line 123), or a value
of some other type entirely. -/
inductive FileSpec where
  | name (s : String)
  | indexed (l : List (Int × String))
  | dictOther (l : List (String × String))
  | other
deriving DecidableEq

/-- Comma-space join, as Python renders container items. -/
def joinComma : List String → String
  | [] => ""
  | [s] => s
  | s :: t :: rest => s ++ ", " ++ joinComma (t :: rest)

/-- Wrap in single quotes, as Python repr does for the strings that occur
here. -/
def pyQuote (s : String) : String := "\x27" ++ s ++ "\x27"

mutual
/-- Python repr() of a JSON value. -/
def Json.pyRepr : Json → String
  | .num n => toString n
  | .str s => pyQuote s
  | .arr l => "[" ++ jListRepr l ++ "]"
  | .obj l => "\x7b" ++ jObjRepr l ++ "\x7d"
/-- Python repr of list items. -/
def jListRepr : List Json → String
  | [] => ""
  | [j] => Json.pyRepr j
  | j :: j2 :: rest => Json.pyRepr j ++ ", " ++ jListRepr (j2 :: rest)
/-- Python repr of dict items. -/
def jObjRepr : List (String × Json) → String
  | [] => ""
  | [(k, v)] => pyQuote k ++ ": " ++ Json.pyRepr v
  | (k, v) :: p :: rest => pyQuote k ++ ": " ++ Json.pyRepr v ++ ", " ++ jObjRepr (p :: rest)
end

/-- Python str() of a JSON value, as f-string interpolation applies it. -/
def Json.pyStr : Json → String
  | .str s => s
  | j => Json.pyRepr j

/-- Python str() of the files value when it is interpolated into the download
path. The `other` case stands for a value of unknown type and is unreachable
from run (the shape check returns first). -/
def FileSpec.pyStr : FileSpec → String
  | .name s => s
  | .indexed l =>
    "\x7b" ++ joinComma (l.map (fun p => toString p.1 ++ ": " ++ pyQuote p.2)) ++ "\x7d"
  | .dictOther l =>
    "\x7b" ++ joinComma (l.map (fun p => pyQuote p.1 ++ ": " ++ pyQuote p.2)) ++ "\x7d"
  | .other => ""

/-- Python `len(files) if type(files) == dict else 1` (line 126). -/
def FileSpec.size : FileSpec → Nat
  | .name _ => 1
  | .indexed l => l.length
  | .dictOther l => l.length
  | .other => 0

/-- Python files[next(iter(files))]: the value at the dict's first key in
insertion order. A str raises TypeError (a string subscripted by its first
character); an empty iterable raises StopIteration. -/
def FileSpec.firstVal : FileSpec → Except PyErr String
  | .indexed [] => .error .stopIteration
  | .indexed (p :: _) => .ok p.2
  | .dictOther [] => .error .stopIteration
  | .dictOther (p :: _) => .ok p.2
  | .name s => .error (if s.data.isEmpty then .stopIteration else .typeError)
  | .other => .error .typeError

/-- Python files.items(), keys paired with file names; only dict shapes reach
the loops that iterate this. -/
def FileSpec.items : FileSpec → List (JKey × String)
  | .indexed l => l.map (fun p => (JKey.idx p.1, p.2))
  | .dictOther l => l.map (fun p => (JKey.key p.1, p.2))
  | _ => []

/-- In-memory ledger of VersionFileHandler: the JSON file's string-keyed
object, insertion ordered. -/
abbrev Ledger := List (String × Json)

/-- VersionFileHandler.get for the key object the caller passes: a str looks
up, a dict is unhashable and raises TypeError (values of other types are
unreachable from run, which rejects them at the shape check first). -/
def vfhGet (data : Ledger) : FileSpec → Except PyErr (Option Json)
  | .name s => .ok (pyGet data s)
  | _ => .error .typeError

/-- VersionFileHandler.set; only reached with str keys. -/
def vfhSet (data : Ledger) (key : FileSpec) (v : Json) : Ledger :=
  match key with
  | .name s => pySet data s v
  | _ => data

/-- An HTTP response: ok is response.ok, body the parsed response.json(),
content the raw response.content. -/
structure HResp where
  ok : Bool
  body : Json
  content : String

/-- The network: what requests.get returns for each URL. -/
abbrev Net := String → HResp

/-- Observable events of one process execution, in order. readVF/writeVF are
reads/writes of the ledger file, logExc is the top-level logging.exception. -/
inductive Ev where
  | readVF
  | writeVF (m : Ledger)
  | mkdir
  | httpGet (url : String)
  | fileWrite (path : String)
  | logError (what : String)
  | logCritical
  | logInfo
  | logExc

/-- Content of the ledger file on disk: valid JSON (parsed as a ledger) or
unparseable text. -/
inductive VFile where
  | valid (m : Ledger)
  | invalid

/-- The file system as the program sees it. -/
structure FS where
  versionFile : Option VFile
  dirExists : Bool
  files : List (String × String)

/-- A download job: Python dict from direct URL to the files value (a file
name on every path reachable from run). -/
abbrev Job := List (String × FileSpec)

/-- Result of one resolver call: the Python return value or the exception it
raised, the ledger and updated counter after its side effects (mutations made
before an exception persist), and the events it caused. -/
structure ROut where
  res : Except PyErr (Option Job)
  data : Ledger
  updated : Nat
  evs : List Ev

/-- Spiget version-lookup endpoint (line 171). -/
def spigetMetaUrl (resource : String) : String :=
  "https://api.spiget.org/v2/resources/" ++ resource ++ "/versions/latest"

/-- Spiget direct-download URL (lines 178-179). -/
def spigetDlUrl (resource : String) (version : Json) : String :=
  "https://api.spiget.org/v2/resources/" ++ resource ++ "/download?version=" ++ version.pyStr

/-- Python url.split('.')[-1] (line 169); split always returns a nonempty
list. -/
def resourceOf (url : String) : String := (pySplit '.' url).getLastD ""

/-- PluginUpdater._handle_spigot (lines 167-182). -/
def handleSpigot (net : Net) (data : Ledger) (updated : Nat) (url : String)
    (files : FileSpec) : ROut :=
  let mu := spigetMetaUrl (resourceOf url)
  let resp := net mu
  if resp.ok then
    match resp.body.sub "id" with
    | .error e => ⟨.error e, data, updated, [.httpGet mu]⟩
    | .ok version =>
      match vfhGet data files with
      | .error e => ⟨.error e, data, updated, [.httpGet mu]⟩
      | .ok cur =>
        if pyNeq cur version then
          ⟨.ok (some [(spigetDlUrl (resourceOf url) version, files)]),
            vfhSet data files version, updated + 1, [.httpGet mu]⟩
        else ⟨.ok none, data, updated, [.httpGet mu]⟩
  else ⟨.ok none, data, updated, [.httpGet mu, .logError url]⟩

/-- Jenkins metadata endpoint (line 188). -/
def jenkinsMetaUrl (url : String) : String := url ++ "/lastSuccessfulBuild/api/json"

/-- Python data["artifacts"][i]["relativePath"] (line 198). -/
def artifactPath (body : Json) (k : JKey) : Except PyErr Json :=
  match body.sub "artifacts" with
  | .error e => .error e
  | .ok a =>
    match a.subKey k with
    | .error e => .error e
    | .ok x => x.sub "relativePath"

/-- Jenkins artifact download URL (lines 197-198). -/
def jenkinsDlUrl (url : String) (rp : Json) : String :=
  url ++ "/lastSuccessfulBuild/artifact/" ++ rp.pyStr

/-- Loop of _handle_jenkins (lines 196-201): per item the URL is built
(possibly raising), the job entry stored, the ledger written and the counter
bumped; writes made before an exception persist. -/
def jenkinsLoop (url : String) (body build : Json) :
    List (JKey × String) → Ledger → Nat → Job → Except PyErr Unit × Ledger × Nat × Job
  | [], d, u, acc => (.ok (), d, u, acc)
  | (k, f) :: rest, d, u, acc =>
    match artifactPath body k with
    | .error e => (.error e, d, u, acc)
    | .ok rp =>
      jenkinsLoop url body build rest (pySet d f build) (u + 1)
        (pySet acc (jenkinsDlUrl url rp) (FileSpec.name f))

/-- PluginUpdater._handle_jenkins (lines 184-204). -/
def handleJenkins (net : Net) (data : Ledger) (updated : Nat) (url : String)
    (files : FileSpec) : ROut :=
  let mu := jenkinsMetaUrl url
  let resp := net mu
  if resp.ok then
    match resp.body.sub "number" with
    | .error e => ⟨.error e, data, updated, [.httpGet mu]⟩
    | .ok build =>
      match files.firstVal with
      | .error e => ⟨.error e, data, updated, [.httpGet mu]⟩
      | .ok rep =>
        if pyNeq (pyGet data rep) build then
          match jenkinsLoop url resp.body build files.items data updated [] with
          | (.error e, d, u, _) => ⟨.error e, d, u, [.httpGet mu]⟩
          | (.ok _, d, u, acc) => ⟨.ok (some acc), d, u, [.httpGet mu]⟩
        else ⟨.ok none, data, updated, [.httpGet mu]⟩
  else ⟨.ok none, data, updated, [.httpGet mu, .logError url]⟩

/-- GitHub releases endpoint (lines 210-213). -/
def githubMetaUrl (url : String) : String :=
  pyReplace url "github.com" "api.github.com/repos" ++ "/releases/latest"

/-- Python data['assets'][i]['browser_download_url'] (line 222). -/
def assetUrl (body : Json) (k : JKey) : Except PyErr Json :=
  match body.sub "assets" with
  | .error e => .error e
  | .ok a =>
    match a.subKey k with
    | .error e => .error e
    | .ok x => x.sub "browser_download_url"

/-- Loop of _handle_github (lines 221-225). -/
def githubLoop (release : Json) (body : Json) :
    List (JKey × String) → Ledger → Nat → Job → Except PyErr Unit × Ledger × Nat × Job
  | [], d, u, acc => (.ok (), d, u, acc)
  | (k, f) :: rest, d, u, acc =>
    match assetUrl body k with
    | .error e => (.error e, d, u, acc)
    | .ok bu =>
      githubLoop release body rest (pySet d f release) (u + 1)
        (pySet acc bu.pyStr (FileSpec.name f))

/-- PluginUpdater._handle_github (lines 206-228). -/
def handleGithub (net : Net) (data : Ledger) (updated : Nat) (url : String)
    (files : FileSpec) : ROut :=
  let mu := githubMetaUrl url
  let resp := net mu
  if resp.ok then
    match resp.body.sub "id" with
    | .error e => ⟨.error e, data, updated, [.httpGet mu]⟩
    | .ok release =>
      match files.firstVal with
      | .error e => ⟨.error e, data, updated, [.httpGet mu]⟩
      | .ok rep =>
        if pyNeq (pyGet data rep) release then
          match githubLoop release resp.body files.items data updated [] with
          | (.error e, d, u, _) => ⟨.error e, d, u, [.httpGet mu]⟩
          | (.ok _, d, u, acc) => ⟨.ok (some acc), d, u, [.httpGet mu]⟩
        else ⟨.ok none, data, updated, [.httpGet mu]⟩
  else ⟨.ok none, data, updated, [.httpGet mu, .logError url]⟩

/-- Source location of a catalog entry: a str or a value of some other type
(the PLUGINS dict could in principle hold a non-string key). -/
inductive EUrl where
  | str (s : String)
  | other
deriving DecidableEq

/-- One catalog entry of PLUGINS. -/
structure Entry where
  url : EUrl
  files : FileSpec

/-- Mutable state of PluginUpdater during run. -/
structure RunSt where
  data : Ledger
  updated : Nat
  downloaded : Nat
  total : Nat
  fs : FS
  evs : List Ev

/-- PluginUpdater.download, one (url, file) item at a time (lines 153-160). -/
def dlLoop (net : Net) : Job → RunSt → RunSt
  | [], st => st
  | (u, f) :: rest, st =>
    let resp := net u
    if resp.ok then
      dlLoop net rest { st with
        fs := { st.fs with files := pySet st.fs.files ("plugins/" ++ f.pyStr) resp.content },
        downloaded := st.downloaded + 1,
        evs := st.evs ++ [Ev.httpGet u, Ev.fileWrite ("plugins/" ++ f.pyStr)] }
    else dlLoop net rest { st with evs := st.evs ++ [Ev.httpGet u, Ev.logError f.pyStr] }

/-- PluginUpdater.download: None is a no-op (lines 148-160). -/
def download (net : Net) (data : Option Job) (st : RunSt) : RunSt :=
  match data with
  | none => st
  | some job => dlLoop net job st

/-- Merge a resolver result into the run state, then download: the resolver's
ledger mutations land before any fetch is attempted, and an exception skips
the download and propagates. -/
def applyR (net : Net) (st : RunSt) (r : ROut) : RunSt × Option PyErr :=
  let st1 : RunSt := { st with data := r.data, updated := r.updated, evs := st.evs ++ r.evs }
  match r.res with
  | .error e => (st1, some e)
  | .ok job => (download net job st1, none)

/-- Python url.lower().split('/')[2] (line 128); IndexError when there are
fewer than three parts. -/
def hostOf (url : String) : Option String := (pySplit '/' (pyLower url)).get? 2

/-- The resolver variants of the dispatch. -/
inductive Variant where
  | marketplace
  | ci
  | sourceforge
  | direct
deriving DecidableEq

/-- The branch cascade of lines 129-141 on the host. -/
def variantOfHost (domain : String) : Variant :=
  if containsTok domain "spigotmc.org" then Variant.marketplace
  else if containsTok domain "ci." then Variant.ci
  else if containsTok domain "github.com" then Variant.sourceforge
  else Variant.direct

/-- Which resolver PluginUpdater.run picks for a URL (none when host
extraction raises IndexError). -/
def dispatchOf (url : String) : Option Variant := (hostOf url).map variantOfHost

/-- Dispatch and download of one well-shaped entry, with the total tally of
line 126 that precedes it. -/
def processEntry (net : Net) (u : String) (files : FileSpec) (st0 : RunSt) :
    RunSt × Option PyErr :=
  let st : RunSt := { st0 with total := st0.total + files.size }
  match hostOf u with
  | none => (st, some PyErr.indexError)
  | some dom =>
    match variantOfHost dom with
    | Variant.marketplace => applyR net st (handleSpigot net st.data st.updated u files)
    | Variant.ci => applyR net st (handleJenkins net st.data st.updated u files)
    | Variant.sourceforge => applyR net st (handleGithub net st.data st.updated u files)
    | Variant.direct => (download net (some [(u, files)]) st, none)

/-- How the run method ends: normal completion, the silent return on a
malformed entry (line 124), an uncaught exception, or a keyboard interrupt. -/
inductive Stop where
  | finished
  | malformed
  | excRaised (e : PyErr)
  | interrupted
deriving DecidableEq

/-- The entry loop of PluginUpdater.run (lines 122-141). budget counts the
entries processed before a keyboard interrupt is delivered (modelled at entry
boundaries); none means no interrupt ever arrives. -/
def runLoop (net : Net) : List Entry → Option Nat → RunSt → RunSt × Stop
  | [], _, st => (st, Stop.finished)
  | e :: rest, budget, st =>
    if budget = some 0 then (st, Stop.interrupted)
    else
      match e with
      | ⟨EUrl.other, _⟩ => (st, Stop.malformed)
      | ⟨EUrl.str _, FileSpec.other⟩ => (st, Stop.malformed)
      | ⟨EUrl.str u, files⟩ =>
        match processEntry net u files st with
        | (st1, some err) => (st1, Stop.excRaised err)
        | (st1, none) => runLoop net rest (budget.map (fun n => n - 1)) st1

/-- PluginUpdater.run (lines 114-146): the start log, the empty-catalog
critical log and return, the entry loop, and the summary log on normal
completion only. -/
def run (net : Net) (cat : List Entry) (budget : Option Nat) (st0 : RunSt) : RunSt × Stop :=
  let st : RunSt := { st0 with evs := st0.evs ++ [Ev.logInfo] }
  if cat.isEmpty then ({ st with evs := st.evs ++ [Ev.logCritical] }, Stop.finished)
  else
    match runLoop net cat budget st with
    | (st1, Stop.finished) => ({ st1 with evs := st1.evs ++ [Ev.logInfo] }, Stop.finished)
    | r => r

/-- VersionFileHandler._handle_file (lines 92-98): read the file when it
exists (json.load of unparseable content raises json.JSONDecodeError, a
ValueError), else create it by writing the empty map. -/
def handleFile (fs : FS) : Except PyErr (Ledger × FS × List Ev) :=
  match fs.versionFile with
  | some (VFile.valid m) => .ok (m, fs, [Ev.readVF])
  | some VFile.invalid => .error PyErr.valueError
  | none => .ok ([], { fs with versionFile := some (VFile.valid []) }, [Ev.writeVF []])

/-- PluginUpdater._handle_dirs (lines 162-165). -/
def handleDirs (fs : FS) : FS × List Ev :=
  if fs.dirExists then (fs, []) else ({ fs with dirExists := true }, [Ev.mkdir])

/-- Observable outcome of one whole process execution. -/
structure PR where
  exitCode : Nat
  initEvs : List Ev
  mainEvs : List Ev
  teardownEvs : List Ev
  fs : FS
  data : Ledger
  updated : Nat
  downloaded : Nat
  total : Nat

/-- The full event trace of a process execution. -/
def PR.trace (p : PR) : List Ev := p.initEvs ++ p.mainEvs ++ p.teardownEvs

/-- The whole process: the __main__ guard around main() (lines 231-247), with
CPython finalization modelled explicitly: the VersionFileHandler object is
destroyed exactly once when the interpreter exits, so its __del__ flushes the
in-memory map then on every path — normal completion, the silent return on a
malformed entry, a caught exception (logged by the except Exception arm, after
which the process ends with status 0), a KeyboardInterrupt (sys.exit(1)), and
even a failed __init__, whose partially initialized handler still holds and
flushes the empty map. -/
def process (cat : List Entry) (net : Net) (fs0 : FS) (budget : Option Nat) : PR :=
  match handleFile fs0 with
  | .error _ =>
    ⟨0, [], [Ev.logExc], [Ev.writeVF []],
      { fs0 with versionFile := some (VFile.valid []) }, [], 0, 0, 0⟩
  | .ok (m, fs1, iev) =>
    let dd := handleDirs fs1
    let st0 : RunSt := ⟨m, 0, 0, 0, dd.1, []⟩
    let rr := run net cat budget st0
    let st := rr.1
    let fsF : FS := { st.fs with versionFile := some (VFile.valid st.data) }
    match rr.2 with
    | Stop.interrupted =>
      ⟨1, iev ++ dd.2, st.evs, [Ev.writeVF st.data], fsF,
        st.data, st.updated, st.downloaded, st.total⟩
    | Stop.excRaised _ =>
      ⟨0, iev ++ dd.2, st.evs ++ [Ev.logExc], [Ev.writeVF st.data], fsF,
        st.data, st.updated, st.downloaded, st.total⟩
    | _ =>
      ⟨0, iev ++ dd.2, st.evs, [Ev.writeVF st.data], fsF,
        st.data, st.updated, st.downloaded, st.total⟩

/-- First dot-separated label of a host. -/
def firstLabel (domain : String) : String := (pySplit '.' domain).headD ""

/-- Dispatch as claim C3 words it, written from the claim for comparison and
not from the source: ContinuousIntegration requires the host's first label to
be exactly the CI subdomain token. -/
def claimDispatchC3 (domain : String) : Variant :=
  if containsTok domain "spigotmc.org" then Variant.marketplace
  else if firstLabel domain = "ci" then Variant.ci
  else if containsTok domain "github.com" then Variant.sourceforge
  else Variant.direct

/-- Is a flush (a write of the ledger file)? -/
def Ev.isFlush : Ev → Bool
  | .writeVF _ => true
  | _ => false

/-- How many ledger-file writes a trace holds. -/
def flushes (l : List Ev) : Nat := l.countP Ev.isFlush

/-- The shape check of line 123: type(url) == str and
type(files) in (str, dict). -/
def Entry.wellTyped : Entry → Bool
  | ⟨EUrl.str _, FileSpec.other⟩ => false
  | ⟨EUrl.str _, _⟩ => true
  | ⟨EUrl.other, _⟩ => false


/-! Helper lemmas shared by the claim theorems. -/

/-- Python JSON equality agrees with propositional equality. -/
theorem jBeq_iff : ∀ a b : Json, Json.beq a b = true ↔ a = b := by
  apply Json.beq.induct (fun a b => Json.beq a b = true ↔ a = b)
      (fun a b => jObjBeq a b = true ↔ a = b)
      (fun a b => jListBeq a b = true ↔ a = b)
  · intro a b
    simp [Json.beq]
  · intro a b
    simp [Json.beq]
  · intro a b ih
    simp [Json.beq, ih]
  · intro a b ih
    simp [Json.beq, ih]
  · intro t x h1 h2 h3 h4
    cases t <;> cases x <;>
      first
      | exact (h1 _ _ rfl rfl).elim
      | exact (h2 _ _ rfl rfl).elim
      | exact (h3 _ _ rfl rfl).elim
      | exact (h4 _ _ rfl rfl).elim
      | (simp
         try rfl)
  · simp [jListBeq]
  · intro a as b bs ih1 ih2
    simp [jListBeq, Bool.and_eq_true, ih1, ih2]
  · intro t x h1 h2
    cases t with
    | nil =>
      cases x with
      | nil => exact (h1 rfl rfl).elim
      | cons q qs => simp [show jListBeq [] (q :: qs) = false from rfl]
    | cons p ps =>
      cases x with
      | nil => simp [show jListBeq (p :: ps) [] = false from rfl]
      | cons q qs => exact (h2 _ _ _ _ rfl rfl).elim
  · simp [jObjBeq]
  · intro k1 v1 as k2 v2 bs ih1 ih2
    simp [jObjBeq, Bool.and_eq_true, ih1, ih2]
  · intro t x h1 h2
    cases t with
    | nil =>
      cases x with
      | nil => exact (h1 rfl rfl).elim
      | cons q qs => simp [show jObjBeq [] (q :: qs) = false from rfl]
    | cons p ps =>
      cases x with
      | nil => simp [show jObjBeq (p :: ps) [] = false from rfl]
      | cons q qs => exact (h2 p.1 p.2 ps q.1 q.2 qs rfl rfl).elim

/-- The Python comparison get(file) != version is true exactly when the ledger
value differs (or is absent). -/
theorem pyNeq_true_iff (cur : Option Json) (v : Json) :
    pyNeq cur v = true ↔ cur ≠ some v := by
  cases cur with
  | none => simp [pyNeq]
  | some w =>
    rw [show pyNeq (some w) v = ! Json.beq w v from rfl, Bool.not_eq_true']
    rw [Bool.eq_false_iff]
    simp [jBeq_iff]

/-- The Python comparison is false exactly on equality. -/
theorem pyNeq_false_iff (cur : Option Json) (v : Json) :
    pyNeq cur v = false ↔ cur = some v := by
  cases cur with
  | none => simp [pyNeq]
  | some w =>
    rw [show pyNeq (some w) v = ! Json.beq w v from rfl, Bool.not_eq_false']
    simp [jBeq_iff]

theorem pyGet_pySet_self {α β : Type} [DecidableEq α] (d : List (α × β)) (k : α) (v : β) :
    pyGet (pySet d k v) k = some v := by
  induction d with
  | nil => simp [pySet, pyGet]
  | cons p rest ih =>
    by_cases h : p.1 = k <;> simp [pySet, pyGet, h, ih]

theorem pyGet_pySet_ne {α β : Type} [DecidableEq α] (d : List (α × β)) (k k2 : α) (v : β)
    (h : k ≠ k2) : pyGet (pySet d k v) k2 = pyGet d k2 := by
  induction d with
  | nil => simp [pySet, pyGet, h]
  | cons p rest ih =>
    by_cases hp : p.1 = k <;> simp [pySet, pyGet, hp, ih, h]

/-- Writing a fresh key appends it. -/
theorem pySet_fresh {α β : Type} [DecidableEq α] (d : List (α × β)) (k : α) (v : β)
    (h : pyGet d k = none) : pySet d k v = d ++ [(k, v)] := by
  induction d with
  | nil => simp [pySet]
  | cons p rest ih =>
    by_cases hp : p.1 = k
    · simp [pyGet, hp] at h
    · simp [pyGet, hp] at h
      simp [pySet, hp, ih h]


theorem flushes_append (a b : List Ev) : flushes (a ++ b) = flushes a + flushes b := by
  simp [flushes, List.countP_append]

/-- Fetching never mutates the in-memory ledger. -/
theorem dlLoop_data (net : Net) : ∀ (job : Job) (st : RunSt), (dlLoop net job st).data = st.data := by
  intro job
  induction job with
  | nil => intro st; rfl
  | cons p rest ih =>
    intro st
    obtain ⟨u, f⟩ := p
    simp only [dlLoop]
    split
    · exact ih _
    · exact ih _

/-- Fetching never touches the updated counter. -/
theorem dlLoop_updated (net : Net) : ∀ (job : Job) (st : RunSt),
    (dlLoop net job st).updated = st.updated := by
  intro job
  induction job with
  | nil => intro st; rfl
  | cons p rest ih =>
    intro st
    obtain ⟨u, f⟩ := p
    simp only [dlLoop]
    split
    · exact ih _
    · exact ih _

/-- Fetching never touches the total counter. -/
theorem dlLoop_total (net : Net) : ∀ (job : Job) (st : RunSt),
    (dlLoop net job st).total = st.total := by
  intro job
  induction job with
  | nil => intro st; rfl
  | cons p rest ih =>
    intro st
    obtain ⟨u, f⟩ := p
    simp only [dlLoop]
    split
    · exact ih _
    · exact ih _

/-- Fetching never writes the ledger file. -/
theorem dlLoop_vfile (net : Net) : ∀ (job : Job) (st : RunSt),
    (dlLoop net job st).fs.versionFile = st.fs.versionFile := by
  intro job
  induction job with
  | nil => intro st; rfl
  | cons p rest ih =>
    intro st
    obtain ⟨u, f⟩ := p
    simp only [dlLoop]
    split
    · exact ih _
    · exact ih _

/-- Fetching emits no flush event. -/
theorem dlLoop_flushes (net : Net) : ∀ (job : Job) (st : RunSt),
    flushes (dlLoop net job st).evs = flushes st.evs := by
  intro job
  induction job with
  | nil => intro st; rfl
  | cons p rest ih =>
    intro st
    obtain ⟨u, f⟩ := p
    simp only [dlLoop]
    split
    · rw [ih]
      simp [flushes, List.countP_append, List.countP_cons, Ev.isFlush]
    · rw [ih]
      simp [flushes, List.countP_append, List.countP_cons, Ev.isFlush]

theorem download_data (net : Net) (j : Option Job) (st : RunSt) :
    (download net j st).data = st.data := by
  cases j with
  | none => rfl
  | some job => exact dlLoop_data net job st

theorem download_updated (net : Net) (j : Option Job) (st : RunSt) :
    (download net j st).updated = st.updated := by
  cases j with
  | none => rfl
  | some job => exact dlLoop_updated net job st

theorem download_vfile (net : Net) (j : Option Job) (st : RunSt) :
    (download net j st).fs.versionFile = st.fs.versionFile := by
  cases j with
  | none => rfl
  | some job => exact dlLoop_vfile net job st

theorem download_flushes (net : Net) (j : Option Job) (st : RunSt) :
    flushes (download net j st).evs = flushes st.evs := by
  cases j with
  | none => rfl
  | some job => exact dlLoop_flushes net job st

theorem handleSpigot_flushes (net : Net) (data : Ledger) (updated : Nat) (url : String)
    (files : FileSpec) : flushes (handleSpigot net data updated url files).evs = 0 := by
  simp only [handleSpigot]
  repeat' split
  all_goals rfl

theorem handleJenkins_flushes (net : Net) (data : Ledger) (updated : Nat) (url : String)
    (files : FileSpec) : flushes (handleJenkins net data updated url files).evs = 0 := by
  simp only [handleJenkins]
  repeat' split
  all_goals rfl

theorem handleGithub_flushes (net : Net) (data : Ledger) (updated : Nat) (url : String)
    (files : FileSpec) : flushes (handleGithub net data updated url files).evs = 0 := by
  simp only [handleGithub]
  repeat' split
  all_goals rfl

theorem applyR_flushes (net : Net) (st : RunSt) (r : ROut) (h : flushes r.evs = 0) :
    flushes ((applyR net st r).1).evs = flushes st.evs := by
  simp only [applyR]
  split
  · simp [flushes_append, h]
  · rw [download_flushes]
    simp [flushes_append, h]

theorem processEntry_flushes (net : Net) (u : String) (files : FileSpec) (st : RunSt) :
    flushes ((processEntry net u files st).1).evs = flushes st.evs := by
  simp only [processEntry]
  split
  · rfl
  · split
    · exact applyR_flushes _ _ _ (handleSpigot_flushes _ _ _ _ _)
    · exact applyR_flushes _ _ _ (handleJenkins_flushes _ _ _ _ _)
    · exact applyR_flushes _ _ _ (handleGithub_flushes _ _ _ _ _)
    · exact download_flushes _ _ _

theorem runLoop_flushes (net : Net) : ∀ (cat : List Entry) (b : Option Nat) (st : RunSt),
    flushes ((runLoop net cat b st).1).evs = flushes st.evs := by
  intro cat
  induction cat with
  | nil => intro b st; rfl
  | cons e rest ih =>
    intro b st
    obtain ⟨eu, efs⟩ := e
    by_cases hb : b = some 0
    · simp [runLoop, hb]
    · cases eu with
      | other => simp [runLoop, hb]
      | str u =>
        cases efs with
        | other => simp [runLoop, hb]
        | name s =>
          rcases hpe : processEntry net u (FileSpec.name s) st with ⟨st1, oerr⟩
          have hf := processEntry_flushes net u (FileSpec.name s) st
          rw [hpe] at hf
          simp only [runLoop, if_neg hb]
          rw [hpe]
          cases oerr with
          | some err => exact hf
          | none => rw [ih]; exact hf
        | indexed l =>
          rcases hpe : processEntry net u (FileSpec.indexed l) st with ⟨st1, oerr⟩
          have hf := processEntry_flushes net u (FileSpec.indexed l) st
          rw [hpe] at hf
          simp only [runLoop, if_neg hb]
          rw [hpe]
          cases oerr with
          | some err => exact hf
          | none => rw [ih]; exact hf
        | dictOther l =>
          rcases hpe : processEntry net u (FileSpec.dictOther l) st with ⟨st1, oerr⟩
          have hf := processEntry_flushes net u (FileSpec.dictOther l) st
          rw [hpe] at hf
          simp only [runLoop, if_neg hb]
          rw [hpe]
          cases oerr with
          | some err => exact hf
          | none => rw [ih]; exact hf

theorem run_flushes (net : Net) (cat : List Entry) (b : Option Nat) (st0 : RunSt) :
    flushes ((run net cat b st0).1).evs = flushes st0.evs := by
  simp only [run]
  by_cases hc : cat.isEmpty = true
  · rw [if_pos hc]
    simp [flushes_append, flushes, List.countP_cons, List.countP_nil, Ev.isFlush]
  · rw [if_neg hc]
    rcases hr : runLoop net cat b { st0 with evs := st0.evs ++ [Ev.logInfo] } with ⟨st1, stop⟩
    have hf := runLoop_flushes net cat b { st0 with evs := st0.evs ++ [Ev.logInfo] }
    rw [hr] at hf
    simp only [flushes_append] at hf
    have hz : flushes [Ev.logInfo] = 0 := rfl
    rw [hz] at hf
    cases stop <;>
      simp only [flushes_append, flushes, List.countP_append, List.countP_cons,
        List.countP_nil, Ev.isFlush] <;>
      simpa [flushes] using hf

theorem runLoop_none_not_intr (net : Net) : ∀ (cat : List Entry) (st : RunSt),
    (runLoop net cat none st).2 ≠ Stop.interrupted := by
  intro cat
  induction cat with
  | nil => intro st; simp [runLoop]
  | cons e rest ih =>
    intro st
    obtain ⟨eu, efs⟩ := e
    have hb : (none : Option Nat) ≠ some 0 := by simp
    cases eu with
    | other => simp [runLoop, hb]
    | str u =>
      cases efs with
      | other => simp [runLoop, hb]
      | name s =>
        rcases hpe : processEntry net u (FileSpec.name s) st with ⟨st1, oerr⟩
        simp only [runLoop, if_neg hb]
        rw [hpe]
        cases oerr with
        | some err => simp
        | none => exact ih _
      | indexed l =>
        rcases hpe : processEntry net u (FileSpec.indexed l) st with ⟨st1, oerr⟩
        simp only [runLoop, if_neg hb]
        rw [hpe]
        cases oerr with
        | some err => simp
        | none => exact ih _
      | dictOther l =>
        rcases hpe : processEntry net u (FileSpec.dictOther l) st with ⟨st1, oerr⟩
        simp only [runLoop, if_neg hb]
        rw [hpe]
        cases oerr with
        | some err => simp
        | none => exact ih _

theorem run_none_not_intr (net : Net) (cat : List Entry) (st0 : RunSt) :
    (run net cat none st0).2 ≠ Stop.interrupted := by
  simp only [run]
  by_cases hc : cat.isEmpty = true
  · rw [if_pos hc]
    simp
  · rw [if_neg hc]
    rcases hr : runLoop net cat none { st0 with evs := st0.evs ++ [Ev.logInfo] } with ⟨st1, stop⟩
    have := runLoop_none_not_intr net cat { st0 with evs := st0.evs ++ [Ev.logInfo] }
    rw [hr] at this
    simp only at this
    cases stop <;> simp_all

/-- Without an interrupt the top level always exits 0: run returns normally or
an exception is caught and logged (lines 245-247), neither calls sys.exit. -/
theorem process_exit_zero (cat : List Entry) (net : Net) (fs0 : FS) :
    (process cat net fs0 none).exitCode = 0 := by
  simp only [process]
  split
  · rfl
  · next m fs1 iev heq =>
    have hni := run_none_not_intr net cat ⟨m, 0, 0, 0, (handleDirs fs1).1, []⟩
    split
    · next hintr => exact absurd (by rw [hintr]) hni
    · rfl
    · rfl


/-- With no interrupt pending, the loop over xs ++ ys runs xs first and
continues into ys exactly when xs finished normally. -/
theorem runLoop_append_fin (net : Net) : ∀ (xs ys : List Entry) (st : RunSt),
    (runLoop net xs none st).2 = Stop.finished →
    runLoop net (xs ++ ys) none st = runLoop net ys none (runLoop net xs none st).1 := by
  intro xs
  induction xs with
  | nil => intro ys st h; rfl
  | cons e rest ih =>
    intro ys st h
    obtain ⟨eu, efs⟩ := e
    have hb : (none : Option Nat) ≠ some 0 := by simp
    cases eu with
    | other => simp [runLoop] at h
    | str u =>
      cases efs with
      | other => simp [runLoop] at h
      | name s =>
        rcases hpe : processEntry net u (FileSpec.name s) st with ⟨st1, oerr⟩
        simp only [runLoop, if_neg hb, List.cons_append] at h ⊢
        rw [hpe] at h ⊢
        cases oerr with
        | some err => simp at h
        | none => exact ih ys st1 h
      | indexed l =>
        rcases hpe : processEntry net u (FileSpec.indexed l) st with ⟨st1, oerr⟩
        simp only [runLoop, if_neg hb, List.cons_append] at h ⊢
        rw [hpe] at h ⊢
        cases oerr with
        | some err => simp at h
        | none => exact ih ys st1 h
      | dictOther l =>
        rcases hpe : processEntry net u (FileSpec.dictOther l) st with ⟨st1, oerr⟩
        simp only [runLoop, if_neg hb, List.cons_append] at h ⊢
        rw [hpe] at h ⊢
        cases oerr with
        | some err => simp at h
        | none => exact ih ys st1 h

/-- When xs already stopped the loop, appending ys changes nothing. -/
theorem runLoop_append_stop (net : Net) : ∀ (xs ys : List Entry) (st : RunSt),
    (runLoop net xs none st).2 ≠ Stop.finished →
    runLoop net (xs ++ ys) none st = runLoop net xs none st := by
  intro xs
  induction xs with
  | nil => intro ys st h; exact absurd rfl h
  | cons e rest ih =>
    intro ys st h
    obtain ⟨eu, efs⟩ := e
    have hb : (none : Option Nat) ≠ some 0 := by simp
    cases eu with
    | other => simp [runLoop]
    | str u =>
      cases efs with
      | other => simp [runLoop]
      | name s =>
        rcases hpe : processEntry net u (FileSpec.name s) st with ⟨st1, oerr⟩
        simp only [runLoop, if_neg hb, List.cons_append] at h ⊢
        rw [hpe] at h ⊢
        cases oerr with
        | some err => rfl
        | none => exact ih ys st1 h
      | indexed l =>
        rcases hpe : processEntry net u (FileSpec.indexed l) st with ⟨st1, oerr⟩
        simp only [runLoop, if_neg hb, List.cons_append] at h ⊢
        rw [hpe] at h ⊢
        cases oerr with
        | some err => rfl
        | none => exact ih ys st1 h
      | dictOther l =>
        rcases hpe : processEntry net u (FileSpec.dictOther l) st with ⟨st1, oerr⟩
        simp only [runLoop, if_neg hb, List.cons_append] at h ⊢
        rw [hpe] at h ⊢
        cases oerr with
        | some err => rfl
        | none => exact ih ys st1 h

/-- An ill-typed entry stops the loop at once, leaving the state untouched. -/
theorem runLoop_bad_head (net : Net) (b : Entry) (post : List Entry) (st : RunSt)
    (h : b.wellTyped = false) : runLoop net (b :: post) none st = (st, Stop.malformed) := by
  obtain ⟨eu, efs⟩ := b
  cases eu with
  | other => simp [runLoop]
  | str u =>
    cases efs with
    | other => simp [runLoop]
    | name s => simp [Entry.wellTyped] at h
    | indexed l => simp [Entry.wellTyped] at h
    | dictOther l => simp [Entry.wellTyped] at h

/-- C4 (corrected): an entry whose source location is not a str or whose
files value is neither a str nor a dict halts processing at that entry: no
later entry is dispatched (the outcome does not depend on them), the loop
stops with the state untouched by the bad entry — but the run ends silently
with exit status 0, not the non-zero fatal abort the claim states, and a
dict of the wrong key type does not halt at all (see the counterexample). -/
theorem malformed_entry_fail_fast (net : Net) (fs0 : FS) (pre post : List Entry) (b : Entry)
    (h : b.wellTyped = false) :
    process (pre ++ b :: post) net fs0 none = process (pre ++ [b]) net fs0 none ∧
    (∀ st : RunSt, runLoop net (b :: post) none st = (st, Stop.malformed)) ∧
    (process (pre ++ b :: post) net fs0 none).exitCode = 0 := by
  have hbad : ∀ (post2 : List Entry) (st : RunSt),
      runLoop net (b :: post2) none st = (st, Stop.malformed) :=
    fun post2 st => runLoop_bad_head net b post2 st h
  refine ⟨?_, fun st => hbad post st, process_exit_zero _ _ _⟩
  have hrun : ∀ st0 : RunSt,
      run net (pre ++ b :: post) none st0 = run net (pre ++ [b]) none st0 := by
    intro st0
    have hrl : ∀ st : RunSt, runLoop net (pre ++ b :: post) none st =
        runLoop net (pre ++ [b]) none st := by
      intro st
      by_cases hf : (runLoop net pre none st).2 = Stop.finished
      · rw [runLoop_append_fin net pre (b :: post) st hf,
          runLoop_append_fin net pre [b] st hf, hbad post, hbad []]
      · rw [runLoop_append_stop net pre (b :: post) st hf,
          runLoop_append_stop net pre [b] st hf]
    have hne1 : (pre ++ b :: post).isEmpty ≠ true := by
      cases pre <;> simp [List.isEmpty]
    have hne2 : (pre ++ [b]).isEmpty ≠ true := by
      cases pre <;> simp [List.isEmpty]
    simp only [run, if_neg hne1, if_neg hne2]
    rw [hrl]
  cases hin : handleFile fs0 with
  | error e => simp [process, hin]
  | ok t =>
    obtain ⟨m, fs1, iev⟩ := t
    simp only [process, hin]
    rw [hrun]


/-- C3 counterexample: for the URL https://myci.example.com/x the code routes
to the ContinuousIntegration resolver, because 'ci.' occurs as a substring of
the host, although the host's first label is myci, not the CI token — the
claim's first-label rule would make this entry Direct. -/
theorem dispatch_counter :
    dispatchOf "https://myci.example.com/x" = some Variant.ci ∧
    hostOf "https://myci.example.com/x" = some "myci.example.com" ∧
    claimDispatchC3 "myci.example.com" = Variant.direct ∧
    firstLabel "myci.example.com" ≠ "ci" :=
  ⟨rfl, rfl, rfl, by decide⟩

/-- C3 (corrected): the dispatch is by tokens of the lowercased host, checked
in order, but the ContinuousIntegration test is a substring test for the
token ci-dot anywhere in the host, not a first-label test: Marketplace iff
the host contains the marketplace token; else CI iff it contains "ci.";
else SourceForge iff it contains the source-forge token; else Direct. -/
theorem dispatch_characterisation (url h : String) (hh : hostOf url = some h) :
    (dispatchOf url = some Variant.marketplace ↔ containsTok h "spigotmc.org" = true) ∧
    (dispatchOf url = some Variant.ci ↔
      containsTok h "spigotmc.org" = false ∧ containsTok h "ci." = true) ∧
    (dispatchOf url = some Variant.sourceforge ↔
      containsTok h "spigotmc.org" = false ∧ containsTok h "ci." = false ∧
        containsTok h "github.com" = true) ∧
    (dispatchOf url = some Variant.direct ↔
      containsTok h "spigotmc.org" = false ∧ containsTok h "ci." = false ∧
        containsTok h "github.com" = false) := by
  simp only [dispatchOf, hh, Option.map_some']
  unfold variantOfHost
  by_cases h1 : containsTok h "spigotmc.org" <;>
    by_cases h2 : containsTok h "ci." <;>
    by_cases h3 : containsTok h "github.com" <;>
    simp [h1, h2, h3]

/-- C3 witness: the characterisation applied to a direct-download catalog
entry's URL. -/
theorem dispatch_witness :
    hostOf "https://dev.bukkit.org/projects/worldguard/files/latest" = some "dev.bukkit.org" ∧
    (dispatchOf "https://dev.bukkit.org/projects/worldguard/files/latest" = some Variant.direct ↔
      containsTok "dev.bukkit.org" "spigotmc.org" = false ∧
        containsTok "dev.bukkit.org" "ci." = false ∧
        containsTok "dev.bukkit.org" "github.com" = false) :=
  ⟨rfl, (dispatch_characterisation "https://dev.bukkit.org/projects/worldguard/files/latest"
    "dev.bukkit.org" rfl).2.2.2⟩

/-- C4 counterexample: a catalog whose first entry carries a str-keyed dict
as its files value — not one of the two recognized shapes — does not halt
the run: the entry passes the type check, its resolver failure is logged,
the second entry is still dispatched and downloaded, and the process exits
with status 0 rather than the claimed non-zero fatal abort. -/
theorem malformed_entry_counter :
    process
      [⟨EUrl.str "https://www.spigotmc.org/resources/p.1", FileSpec.dictOther [("a", "b")]⟩,
       ⟨EUrl.str "https://example.com/f.jar", FileSpec.name "x.jar"⟩]
      (fun u => if u = "https://example.com/f.jar" then ⟨true, Json.num 0, "bytes"⟩
        else ⟨false, Json.num 0, ""⟩)
      ⟨some (VFile.valid []), true, []⟩ none =
    ⟨0, [Ev.readVF],
      [Ev.logInfo, Ev.httpGet (spigetMetaUrl "1"),
       Ev.logError "https://www.spigotmc.org/resources/p.1",
       Ev.httpGet "https://example.com/f.jar", Ev.fileWrite "plugins/x.jar", Ev.logInfo],
      [Ev.writeVF []],
      ⟨some (VFile.valid []), true, [("plugins/x.jar", "bytes")]⟩, [], 0, 1, 2⟩ := rfl

/-- C4 witness: the fail-fast theorem applied to a concrete catalog whose
middle entry has a files value of unrecognized type. -/
theorem malformed_entry_witness :
    (⟨EUrl.str "https://a.example/x", FileSpec.other⟩ : Entry).wellTyped = false ∧
    process
        [⟨EUrl.str "https://b.example/y.jar", FileSpec.name "y.jar"⟩,
         ⟨EUrl.str "https://a.example/x", FileSpec.other⟩,
         ⟨EUrl.str "https://c.example/z.jar", FileSpec.name "z.jar"⟩]
        (fun _ => ⟨false, Json.num 0, ""⟩) ⟨some (VFile.valid []), true, []⟩ none =
      process
        [⟨EUrl.str "https://b.example/y.jar", FileSpec.name "y.jar"⟩,
         ⟨EUrl.str "https://a.example/x", FileSpec.other⟩]
        (fun _ => ⟨false, Json.num 0, ""⟩) ⟨some (VFile.valid []), true, []⟩ none ∧
    (process
        [⟨EUrl.str "https://b.example/y.jar", FileSpec.name "y.jar"⟩,
         ⟨EUrl.str "https://a.example/x", FileSpec.other⟩,
         ⟨EUrl.str "https://c.example/z.jar", FileSpec.name "z.jar"⟩]
        (fun _ => ⟨false, Json.num 0, ""⟩) ⟨some (VFile.valid []), true, []⟩ none).exitCode = 0 := by
  refine ⟨rfl, ?_, ?_⟩
  · exact (malformed_entry_fail_fast (fun _ => ⟨false, Json.num 0, ""⟩)
      ⟨some (VFile.valid []), true, []⟩
      [⟨EUrl.str "https://b.example/y.jar", FileSpec.name "y.jar"⟩]
      [⟨EUrl.str "https://c.example/z.jar", FileSpec.name "z.jar"⟩]
      ⟨EUrl.str "https://a.example/x", FileSpec.other⟩ rfl).1
  · exact (malformed_entry_fail_fast (fun _ => ⟨false, Json.num 0, ""⟩)
      ⟨some (VFile.valid []), true, []⟩
      [⟨EUrl.str "https://b.example/y.jar", FileSpec.name "y.jar"⟩]
      [⟨EUrl.str "https://c.example/z.jar", FileSpec.name "z.jar"⟩]
      ⟨EUrl.str "https://a.example/x", FileSpec.other⟩ rfl).2.2

/-- C5 counterexample: with an empty catalog the ledger file is read during
initialization (the readVF event) and rewritten at teardown, before and after
the catalog check — the claim says the ledger file is not even read. -/
theorem empty_catalog_counter :
    process [] (fun _ => ⟨false, Json.num 0, ""⟩)
      ⟨some (VFile.valid [("A.jar", Json.num 1)]), true, []⟩ none =
    ⟨0, [Ev.readVF], [Ev.logInfo, Ev.logCritical], [Ev.writeVF [("A.jar", Json.num 1)]],
      ⟨some (VFile.valid [("A.jar", Json.num 1)]), true, []⟩,
      [("A.jar", Json.num 1)], 0, 0, 0⟩ := rfl

/-- C5 (corrected): an empty catalog logs the critical message and the run
processes no entry and downloads nothing — but the ledger file has already
been read (or created) and the plugin directory ensured during
initialization, and the ledger is still flushed once at teardown. -/
theorem empty_catalog_behaviour (net : Net) (fs0 : FS) (budget : Option Nat)
    (m : Ledger) (fs1 : FS) (iev : List Ev) (h : handleFile fs0 = Except.ok (m, fs1, iev)) :
    process [] net fs0 budget =
      ⟨0, iev ++ (handleDirs fs1).2, [Ev.logInfo, Ev.logCritical], [Ev.writeVF m],
        { (handleDirs fs1).1 with versionFile := some (VFile.valid m) }, m, 0, 0, 0⟩ := by
  simp only [process, h]
  rfl

/-- C5 witness: the empty-catalog behaviour at a concrete state whose ledger
file exists, showing the readVF event and the teardown flush. -/
theorem empty_catalog_witness :
    handleFile ⟨some (VFile.valid [("B.jar", Json.num 7)]), false, []⟩ =
      Except.ok ([("B.jar", Json.num 7)],
        ⟨some (VFile.valid [("B.jar", Json.num 7)]), false, []⟩, [Ev.readVF]) ∧
    process [] (fun _ => ⟨false, Json.num 0, ""⟩)
        ⟨some (VFile.valid [("B.jar", Json.num 7)]), false, []⟩ none =
      ⟨0, [Ev.readVF] ++
          (handleDirs ⟨some (VFile.valid [("B.jar", Json.num 7)]), false, []⟩).2,
        [Ev.logInfo, Ev.logCritical], [Ev.writeVF [("B.jar", Json.num 7)]],
        { (handleDirs ⟨some (VFile.valid [("B.jar", Json.num 7)]), false, []⟩).1 with
            versionFile := some (VFile.valid [("B.jar", Json.num 7)]) },
        [("B.jar", Json.num 7)], 0, 0, 0⟩ :=
  ⟨rfl, empty_catalog_behaviour (fun _ => ⟨false, Json.num 0, ""⟩)
    ⟨some (VFile.valid [("B.jar", Json.num 7)]), false, []⟩ none
    [("B.jar", Json.num 7)] ⟨some (VFile.valid [("B.jar", Json.num 7)]), false, []⟩
    [Ev.readVF] rfl⟩

/-- C6 counterexample: json.load of an unparseable ledger file raises
json.JSONDecodeError, which is a ValueError — not the IOError the claim
names. -/
theorem ledger_load_counter :
    handleFile ⟨some VFile.invalid, true, []⟩ = Except.error PyErr.valueError ∧
    PyErr.valueError ≠ PyErr.ioError :=
  ⟨rfl, by decide⟩

/-- C6 (corrected): load reads the ledger file when it exists and otherwise
creates it with the empty map; when the file exists but is unparseable the
load fails with a JSONDecodeError (a ValueError, not IOError), and this
aborts before any entry is processed — the top-level handler logs it, the
run never starts, and the teardown flush overwrites the file with the
handler's empty map. -/
theorem ledger_load_behaviour (d : Bool) (fl : List (String × String)) (m : Ledger)
    (cat : List Entry) (net : Net) (budget : Option Nat) :
    handleFile ⟨some (VFile.valid m), d, fl⟩ =
      Except.ok (m, ⟨some (VFile.valid m), d, fl⟩, [Ev.readVF]) ∧
    handleFile ⟨none, d, fl⟩ =
      Except.ok ([], ⟨some (VFile.valid []), d, fl⟩, [Ev.writeVF []]) ∧
    handleFile ⟨some VFile.invalid, d, fl⟩ = Except.error PyErr.valueError ∧
    process cat net ⟨some VFile.invalid, d, fl⟩ budget =
      ⟨0, [], [Ev.logExc], [Ev.writeVF []], ⟨some (VFile.valid []), d, fl⟩, [], 0, 0, 0⟩ :=
  ⟨rfl, rfl, rfl, rfl⟩

/-- C7 (confirmed): whenever initialization succeeds, the ledger is
serialized to disk exactly once, at teardown, whatever the exit path (normal
completion, malformed-entry return, caught exception, or keyboard interrupt
at any entry boundary — the budget quantifies over all of them): the main
phase emits no flush, the teardown emits exactly the one flush, and the file
then holds the in-memory map as of the stopping point, so updates recorded
before an interrupt are preserved. -/
theorem flush_exactly_once (cat : List Entry) (net : Net) (fs0 : FS) (budget : Option Nat)
    (m : Ledger) (fs1 : FS) (iev : List Ev) (h : handleFile fs0 = Except.ok (m, fs1, iev)) :
    (process cat net fs0 budget).teardownEvs = [Ev.writeVF (process cat net fs0 budget).data] ∧
    flushes (process cat net fs0 budget).mainEvs = 0 ∧
    (process cat net fs0 budget).fs.versionFile =
      some (VFile.valid (process cat net fs0 budget).data) := by
  simp only [process, h]
  rcases hr : run net cat budget ⟨m, 0, 0, 0, (handleDirs fs1).1, []⟩ with ⟨st, stop⟩
  have hf := run_flushes net cat budget ⟨m, 0, 0, 0, (handleDirs fs1).1, []⟩
  rw [hr] at hf
  simp only at hf
  cases stop <;>
    simp_all [flushes_append, flushes, List.countP_cons, List.countP_nil, Ev.isFlush]

/-- C7 witness: a run over one direct entry with a keyboard interrupt
delivered before it, exiting 1 with the single teardown flush. -/
theorem flush_exactly_once_witness :
    handleFile ⟨some (VFile.valid [("C.jar", Json.num 3)]), true, []⟩ =
      Except.ok ([("C.jar", Json.num 3)],
        ⟨some (VFile.valid [("C.jar", Json.num 3)]), true, []⟩, [Ev.readVF]) ∧
    (process [⟨EUrl.str "https://d.example/c.jar", FileSpec.name "C.jar"⟩]
        (fun _ => ⟨false, Json.num 0, ""⟩)
        ⟨some (VFile.valid [("C.jar", Json.num 3)]), true, []⟩ (some 0)).teardownEvs =
      [Ev.writeVF (process [⟨EUrl.str "https://d.example/c.jar", FileSpec.name "C.jar"⟩]
        (fun _ => ⟨false, Json.num 0, ""⟩)
        ⟨some (VFile.valid [("C.jar", Json.num 3)]), true, []⟩ (some 0)).data] ∧
    flushes (process [⟨EUrl.str "https://d.example/c.jar", FileSpec.name "C.jar"⟩]
        (fun _ => ⟨false, Json.num 0, ""⟩)
        ⟨some (VFile.valid [("C.jar", Json.num 3)]), true, []⟩ (some 0)).mainEvs = 0 := by
  refine ⟨rfl, ?_, ?_⟩
  · exact (flush_exactly_once [⟨EUrl.str "https://d.example/c.jar", FileSpec.name "C.jar"⟩]
      (fun _ => ⟨false, Json.num 0, ""⟩)
      ⟨some (VFile.valid [("C.jar", Json.num 3)]), true, []⟩ (some 0) [("C.jar", Json.num 3)]
      ⟨some (VFile.valid [("C.jar", Json.num 3)]), true, []⟩ [Ev.readVF] rfl).1
  · exact (flush_exactly_once [⟨EUrl.str "https://d.example/c.jar", FileSpec.name "C.jar"⟩]
      (fun _ => ⟨false, Json.num 0, ""⟩)
      ⟨some (VFile.valid [("C.jar", Json.num 3)]), true, []⟩ (some 0) [("C.jar", Json.num 3)]
      ⟨some (VFile.valid [("C.jar", Json.num 3)]), true, []⟩ [Ev.readVF] rfl).2.1


/-- Resolver equation: spigot, version unchanged. -/
theorem handleSpigot_unchanged (net : Net) (dd : Ledger) (uu : Nat) (u f : String) (v : Json)
    (hok : (net (spigetMetaUrl (resourceOf u))).ok = true)
    (hid : (net (spigetMetaUrl (resourceOf u))).body.sub "id" = Except.ok v)
    (heq : pyGet dd f = some v) :
    handleSpigot net dd uu u (FileSpec.name f) =
      ⟨Except.ok none, dd, uu, [Ev.httpGet (spigetMetaUrl (resourceOf u))]⟩ := by
  have hne : pyNeq (pyGet dd f) v = false := (pyNeq_false_iff _ _).mpr heq
  simp only [handleSpigot, hok, if_true]
  rw [hid]
  simp only [vfhGet]
  rw [hne]
  simp

/-- Resolver equation: spigot, version changed or first sighting. -/
theorem handleSpigot_changed (net : Net) (dd : Ledger) (uu : Nat) (u f : String) (v : Json)
    (hok : (net (spigetMetaUrl (resourceOf u))).ok = true)
    (hid : (net (spigetMetaUrl (resourceOf u))).body.sub "id" = Except.ok v)
    (hne0 : pyGet dd f ≠ some v) :
    handleSpigot net dd uu u (FileSpec.name f) =
      ⟨Except.ok (some [(spigetDlUrl (resourceOf u) v, FileSpec.name f)]),
        pySet dd f v, uu + 1, [Ev.httpGet (spigetMetaUrl (resourceOf u))]⟩ := by
  have hne : pyNeq (pyGet dd f) v = true := (pyNeq_true_iff _ _).mpr hne0
  simp only [handleSpigot, hok, if_true]
  rw [hid]
  simp only [vfhGet]
  rw [hne]
  simp [vfhSet]

/-- Lookup skips a leading block it misses. -/
theorem pyGet_append_of_none {α β : Type} [DecidableEq α] :
    ∀ (a b : List (α × β)) (k : α), pyGet a k = none → pyGet (a ++ b) k = pyGet b k := by
  intro a b k
  induction a with
  | nil => intro h; rfl
  | cons p rest ih =>
    intro h
    by_cases hp : p.1 = k
    · simp [pyGet, hp] at h
    · simp [pyGet, hp] at h ⊢
      exact ih h

/-- Repeated dict writes with pairwise fresh, mutually distinct keys append
the written pairs in order. -/
theorem foldl_pySet_fresh {α β γ : Type} [DecidableEq α] (keyf : γ → α) (valf : γ → β) :
    ∀ (l : List γ) (acc : List (α × β)),
      (∀ g ∈ l, pyGet acc (keyf g) = none) → (l.map keyf).Nodup →
      l.foldl (fun a g => pySet a (keyf g) (valf g)) acc =
        acc ++ l.map (fun g => (keyf g, valf g)) := by
  intro l
  induction l with
  | nil => intro acc h1 h2; simp
  | cons g gs ih =>
    intro acc hfresh hnd
    simp only [List.foldl_cons, List.map_cons]
    rw [pySet_fresh _ _ _ (hfresh g (List.mem_cons_self _ _))]
    rw [ih _ ?_ (List.nodup_cons.mp hnd).2]
    · simp
    · intro g2 hg2
      rw [pyGet_append_of_none _ _ _ (hfresh g2 (List.mem_cons_of_mem _ hg2))]
      have hne : keyf g ≠ keyf g2 := by
        intro hEq
        exact (List.nodup_cons.mp hnd).1 (hEq ▸ List.mem_map_of_mem keyf hg2)
      simp [pyGet, hne]

/-- Keys not written by the ledger fold keep their lookup. -/
theorem pyGet_foldl_same (bn : Json) :
    ∀ (l : List (Int × String)) (d : Ledger) (k : String),
      (∀ p ∈ l, p.2 ≠ k) →
      pyGet (l.foldl (fun dd p => pySet dd p.2 bn) d) k = pyGet d k := by
  intro l
  induction l with
  | nil => intro d k h; rfl
  | cons p ps ih =>
    intro d k h
    simp only [List.foldl_cons]
    rw [ih _ _ (fun q hq => h q (List.mem_cons_of_mem _ hq))]
    exact pyGet_pySet_ne d p.2 k bn (h p (List.mem_cons_self _ _))

/-- Every file written by the ledger fold ends at the build number. -/
theorem pyGet_foldl_hit (bn : Json) :
    ∀ (l : List (Int × String)) (d : Ledger) (k : String),
      (∃ p ∈ l, p.2 = k) →
      pyGet (l.foldl (fun dd p => pySet dd p.2 bn) d) k = some bn := by
  intro l
  induction l with
  | nil => intro d k h; simp at h
  | cons p ps ih =>
    intro d k h
    simp only [List.foldl_cons]
    by_cases htail : ∃ q ∈ ps, q.2 = k
    · exact ih _ _ htail
    · push_neg at htail
      have hpk : p.2 = k := by
        rcases h with ⟨q, hq, hqk⟩
        rcases List.mem_cons.mp hq with hq1 | hq2
        · rw [hq1] at hqk
          exact hqk
        · exact absurd hqk (htail q hq2)
      rw [pyGet_foldl_same bn ps _ k htail, hpk]
      exact pyGet_pySet_self d k bn

/-- The jenkins loop, when every key resolves to an artifact path, writes
the build number per file, bumps the counter per file, and accumulates the
job dict of constructed URLs. -/
theorem jenkinsLoop_resolved (u : String) (body bn : Json) (ρ : Int → String) :
    ∀ (l : List (Int × String)) (d : Ledger) (u0 : Nat) (acc : Job),
      (∀ p ∈ l, artifactPath body (JKey.idx p.1) = Except.ok (Json.str (ρ p.1))) →
      jenkinsLoop u body bn (l.map (fun p => (JKey.idx p.1, p.2))) d u0 acc =
        (Except.ok (), l.foldl (fun dd p => pySet dd p.2 bn) d, u0 + l.length,
          l.foldl (fun aa p =>
            pySet aa (jenkinsDlUrl u (Json.str (ρ p.1))) (FileSpec.name p.2)) acc) := by
  intro l
  induction l with
  | nil => intro d u0 acc h; simp [jenkinsLoop]
  | cons p ps ih =>
    intro d u0 acc h
    simp only [List.map_cons, jenkinsLoop]
    rw [h p (List.mem_cons_self _ _)]
    show jenkinsLoop u body bn (List.map (fun q => (JKey.idx q.1, q.2)) ps) (pySet d p.2 bn)
        (u0 + 1) (pySet acc (jenkinsDlUrl u (Json.str (ρ p.1))) (FileSpec.name p.2)) =
      (Except.ok (), List.foldl (fun dd q => pySet dd q.2 bn) (pySet d p.2 bn) ps,
        u0 + (ps.length + 1),
        List.foldl (fun aa q => pySet aa (jenkinsDlUrl u (Json.str (ρ q.1))) (FileSpec.name q.2))
          (pySet acc (jenkinsDlUrl u (Json.str (ρ p.1))) (FileSpec.name p.2)) ps)
    rw [ih _ _ _ (fun q hq => h q (List.mem_cons_of_mem _ hq))]
    have harith : u0 + 1 + ps.length = u0 + (ps.length + 1) := by omega
    rw [harith]

/-- The github loop, when every key resolves to an asset URL, writes the
release id per file, bumps the counter per file, and accumulates the job
dict of asset URLs. -/
theorem githubLoop_resolved (rel body : Json) (sg : Int → String) :
    ∀ (l : List (Int × String)) (d : Ledger) (u0 : Nat) (acc : Job),
      (∀ p ∈ l, assetUrl body (JKey.idx p.1) = Except.ok (Json.str (sg p.1))) →
      githubLoop rel body (l.map (fun p => (JKey.idx p.1, p.2))) d u0 acc =
        (Except.ok (), l.foldl (fun dd p => pySet dd p.2 rel) d, u0 + l.length,
          l.foldl (fun aa p => pySet aa (sg p.1) (FileSpec.name p.2)) acc) := by
  intro l
  induction l with
  | nil => intro d u0 acc h; simp [githubLoop]
  | cons p ps ih =>
    intro d u0 acc h
    simp only [List.map_cons, githubLoop]
    rw [h p (List.mem_cons_self _ _)]
    show githubLoop rel body (List.map (fun q => (JKey.idx q.1, q.2)) ps) (pySet d p.2 rel)
        (u0 + 1) (pySet acc (sg p.1) (FileSpec.name p.2)) =
      (Except.ok (), List.foldl (fun dd q => pySet dd q.2 rel) (pySet d p.2 rel) ps,
        u0 + (ps.length + 1),
        List.foldl (fun aa q => pySet aa (sg q.1) (FileSpec.name q.2))
          (pySet acc (sg p.1) (FileSpec.name p.2)) ps)
    rw [ih _ _ _ (fun q hq => h q (List.mem_cons_of_mem _ hq))]
    have harith : u0 + 1 + ps.length = u0 + (ps.length + 1) := by omega
    rw [harith]

/-- The jenkins loop over xs ++ ys runs xs first and continues into ys only
when xs raised nothing; on an exception the partial state stands. -/
theorem jenkinsLoop_append (u : String) (body bn : Json) :
    ∀ (xs ys : List (JKey × String)) (d : Ledger) (u0 : Nat) (acc : Job),
      jenkinsLoop u body bn (xs ++ ys) d u0 acc =
        (match jenkinsLoop u body bn xs d u0 acc with
          | (Except.ok _, d2, u2, acc2) => jenkinsLoop u body bn ys d2 u2 acc2
          | r => r) := by
  intro xs
  induction xs with
  | nil => intro ys d u0 acc; rfl
  | cons q qs ih =>
    intro ys d u0 acc
    obtain ⟨k, f⟩ := q
    simp only [List.cons_append, jenkinsLoop]
    rcases hap : artifactPath body k with e | rp
    · rfl
    · exact ih ys _ _ _

/-- The github loop over xs ++ ys, likewise. -/
theorem githubLoop_append (rel body : Json) :
    ∀ (xs ys : List (JKey × String)) (d : Ledger) (u0 : Nat) (acc : Job),
      githubLoop rel body (xs ++ ys) d u0 acc =
        (match githubLoop rel body xs d u0 acc with
          | (Except.ok _, d2, u2, acc2) => githubLoop rel body ys d2 u2 acc2
          | r => r) := by
  intro xs
  induction xs with
  | nil => intro ys d u0 acc; rfl
  | cons q qs ih =>
    intro ys d u0 acc
    obtain ⟨k, f⟩ := q
    simp only [List.cons_append, githubLoop]
    rcases hap : assetUrl body k with e | bu
    · rfl
    · exact ih ys _ _ _

/-- Resolver equation: jenkins, build changed, every fileSpec key resolving
to an artifact path. -/
theorem handleJenkins_changed (net : Net) (dd : Ledger) (uu : Nat) (u : String)
    (p0 : Int × String) (ps : List (Int × String)) (bn : Json) (rr : Int → String)
    (hok : (net (jenkinsMetaUrl u)).ok = true)
    (hnum : (net (jenkinsMetaUrl u)).body.sub "number" = Except.ok bn)
    (hres : ∀ p ∈ (p0 :: ps), artifactPath (net (jenkinsMetaUrl u)).body (JKey.idx p.1) =
      Except.ok (Json.str (rr p.1)))
    (hdiff : pyGet dd p0.2 ≠ some bn) :
    handleJenkins net dd uu u (FileSpec.indexed (p0 :: ps)) =
      ⟨Except.ok (some ((p0 :: ps).foldl (fun aa p =>
          pySet aa (jenkinsDlUrl u (Json.str (rr p.1))) (FileSpec.name p.2)) [])),
        (p0 :: ps).foldl (fun d2 p => pySet d2 p.2 bn) dd, uu + (p0 :: ps).length,
        [Ev.httpGet (jenkinsMetaUrl u)]⟩ := by
  have hne : pyNeq (pyGet dd p0.2) bn = true := (pyNeq_true_iff _ _).mpr hdiff
  simp only [handleJenkins, hok, if_true]
  rw [hnum]
  simp only [FileSpec.firstVal]
  rw [hne]
  simp only [FileSpec.items]
  rw [jenkinsLoop_resolved u _ bn rr (p0 :: ps) dd uu [] hres]
  simp

/-- Resolver equation: github, release changed, every fileSpec key resolving
to an asset URL. -/
theorem handleGithub_changed (net : Net) (dd : Ledger) (uu : Nat) (u : String)
    (p0 : Int × String) (ps : List (Int × String)) (rel : Json) (sg : Int → String)
    (hok : (net (githubMetaUrl u)).ok = true)
    (hid : (net (githubMetaUrl u)).body.sub "id" = Except.ok rel)
    (hres : ∀ p ∈ (p0 :: ps), assetUrl (net (githubMetaUrl u)).body (JKey.idx p.1) =
      Except.ok (Json.str (sg p.1)))
    (hdiff : pyGet dd p0.2 ≠ some rel) :
    handleGithub net dd uu u (FileSpec.indexed (p0 :: ps)) =
      ⟨Except.ok (some ((p0 :: ps).foldl (fun aa p =>
          pySet aa (sg p.1) (FileSpec.name p.2)) [])),
        (p0 :: ps).foldl (fun d2 p => pySet d2 p.2 rel) dd, uu + (p0 :: ps).length,
        [Ev.httpGet (githubMetaUrl u)]⟩ := by
  have hne : pyNeq (pyGet dd p0.2) rel = true := (pyNeq_true_iff _ _).mpr hdiff
  simp only [handleGithub, hok, if_true]
  rw [hid]
  simp only [FileSpec.firstVal]
  rw [hne]
  simp only [FileSpec.items]
  rw [githubLoop_resolved rel _ sg (p0 :: ps) dd uu [] hres]
  simp

/-- C1 (confirmed): for a marketplace entry with a single destination
filename whose version lookup succeeds with identifier v: if v equals the
ledger's value for that filename the resolver returns None, the ledger and
the updated counter are untouched and the run state past the entry changes
only by the total tally and the metadata request (no download, no file
write); if it differs — including an absent record — the resolver stores v
in the ledger, bumps updated by exactly one, and returns the single-entry
job from the constructed download URL (endpoint + resource id + version id)
to the destination filename. -/
theorem spigot_resolution (net : Net) (st : RunSt) (u f dom : String) (v : Json)
    (hd : hostOf u = some dom) (hv : variantOfHost dom = Variant.marketplace)
    (hok : (net (spigetMetaUrl (resourceOf u))).ok = true)
    (hid : (net (spigetMetaUrl (resourceOf u))).body.sub "id" = Except.ok v) :
    (pyGet st.data f = some v →
      handleSpigot net st.data st.updated u (FileSpec.name f) =
        ⟨Except.ok none, st.data, st.updated, [Ev.httpGet (spigetMetaUrl (resourceOf u))]⟩ ∧
      processEntry net u (FileSpec.name f) st =
        ({ st with
            total := st.total + 1
            evs := st.evs ++ [Ev.httpGet (spigetMetaUrl (resourceOf u))] }, none)) ∧
    (pyGet st.data f ≠ some v →
      handleSpigot net st.data st.updated u (FileSpec.name f) =
        ⟨Except.ok (some [(spigetDlUrl (resourceOf u) v, FileSpec.name f)]),
          pySet st.data f v, st.updated + 1, [Ev.httpGet (spigetMetaUrl (resourceOf u))]⟩) := by
  refine ⟨fun heq => ⟨handleSpigot_unchanged net st.data st.updated u f v hok hid heq, ?_⟩,
    fun hne => handleSpigot_changed net st.data st.updated u f v hok hid hne⟩
  simp only [processEntry, hd]
  rw [hv]
  rw [handleSpigot_unchanged net _ _ u f v hok hid heq]
  simp [applyR, download, FileSpec.size]

/-- C1 witness: the spigot postcondition at the LuckPerms scenario of the
spec, ledger already at version 1000. -/
theorem spigot_resolution_witness :
    pyGet ([("LuckPerms.jar", Json.num 1000)] : Ledger) "LuckPerms.jar" = some (Json.num 1000) ∧
    handleSpigot
        (fun q => if q = spigetMetaUrl "28140"
          then ⟨true, Json.obj [("id", Json.num 1000)], ""⟩ else ⟨false, Json.num 0, ""⟩)
        [("LuckPerms.jar", Json.num 1000)] 0
        "https://www.spigotmc.org/resources/luckperms.28140" (FileSpec.name "LuckPerms.jar") =
      ⟨Except.ok none, [("LuckPerms.jar", Json.num 1000)], 0,
        [Ev.httpGet (spigetMetaUrl "28140")]⟩ := by
  constructor
  · rfl
  · have h := spigot_resolution
      (fun q => if q = spigetMetaUrl "28140"
        then ⟨true, Json.obj [("id", Json.num 1000)], ""⟩ else ⟨false, Json.num 0, ""⟩)
      ⟨[("LuckPerms.jar", Json.num 1000)], 0, 0, 0, ⟨some (VFile.valid []), true, []⟩, []⟩
      "https://www.spigotmc.org/resources/luckperms.28140" "LuckPerms.jar"
      "www.spigotmc.org" (Json.num 1000) rfl rfl rfl rfl
    exact (h.1 rfl).1

/-- C8 (confirmed): an entry dispatched to the Direct variant is handed to
the fetch engine verbatim as the single job (url, filename), whatever the
ledger holds; the ledger and the updated counter are untouched and the GET
of the entry URL happens on every run. -/
theorem direct_verbatim (net : Net) (u f : String) (dom : String) (st : RunSt)
    (hd : hostOf u = some dom) (hv : variantOfHost dom = Variant.direct) :
    processEntry net u (FileSpec.name f) st =
      (download net (some [(u, FileSpec.name f)]) { st with total := st.total + 1 }, none) ∧
    (processEntry net u (FileSpec.name f) st).1.data = st.data ∧
    (processEntry net u (FileSpec.name f) st).1.updated = st.updated ∧
    Ev.httpGet u ∈ (processEntry net u (FileSpec.name f) st).1.evs := by
  have h1 : processEntry net u (FileSpec.name f) st =
      (download net (some [(u, FileSpec.name f)]) { st with total := st.total + 1 }, none) := by
    simp only [processEntry, hd]
    rw [hv]
    rfl
  refine ⟨h1, ?_, ?_, ?_⟩
  · rw [h1]
    exact download_data net _ _
  · rw [h1]
    exact download_updated net _ _
  · rw [h1]
    by_cases hu : (net u).ok = true <;>
      simp [download, dlLoop, hu]


/-- C8 witness: the direct variant at the WorldGuard catalog entry produces
the verbatim job and performs the GET while leaving the ledger alone. -/
theorem direct_verbatim_witness :
    hostOf "https://dev.bukkit.org/projects/worldguard/files/latest" = some "dev.bukkit.org" ∧
    variantOfHost "dev.bukkit.org" = Variant.direct ∧
    (processEntry (fun _ => ⟨true, Json.num 0, "wg"⟩)
        "https://dev.bukkit.org/projects/worldguard/files/latest"
        (FileSpec.name "WorldGuard.jar")
        ⟨[("A.jar", Json.num 5)], 0, 0, 0, ⟨some (VFile.valid []), true, []⟩, []⟩).1.data =
      [("A.jar", Json.num 5)] ∧
    Ev.httpGet "https://dev.bukkit.org/projects/worldguard/files/latest" ∈
      (processEntry (fun _ => ⟨true, Json.num 0, "wg"⟩)
        "https://dev.bukkit.org/projects/worldguard/files/latest"
        (FileSpec.name "WorldGuard.jar")
        ⟨[("A.jar", Json.num 5)], 0, 0, 0, ⟨some (VFile.valid []), true, []⟩, []⟩).1.evs := by
  refine ⟨rfl, rfl, ?_, ?_⟩
  · exact (direct_verbatim (fun _ => ⟨true, Json.num 0, "wg"⟩)
      "https://dev.bukkit.org/projects/worldguard/files/latest" "WorldGuard.jar"
      "dev.bukkit.org"
      ⟨[("A.jar", Json.num 5)], 0, 0, 0, ⟨some (VFile.valid []), true, []⟩, []⟩ rfl rfl).2.1
  · exact (direct_verbatim (fun _ => ⟨true, Json.num 0, "wg"⟩)
      "https://dev.bukkit.org/projects/worldguard/files/latest" "WorldGuard.jar"
      "dev.bukkit.org"
      ⟨[("A.jar", Json.num 5)], 0, 0, 0, ⟨some (VFile.valid []), true, []⟩, []⟩ rfl rfl).2.2.2

/-- C9 (confirmed): in every resolver variant that tracks versions —
marketplace, continuous integration and source forge — the ledger writes and
the updated-counter increments for a newly detected version happen during
resolution, before any fetch is attempted, and the fetch engine itself never
touches the ledger or the updated counter; hence, whatever the download GETs
return — in particular when they fail — the run state after the entry
already maps every file of the entry to the new version, so a failed file is
not re-detected as outdated. The marketplace case is also instantiated with
an explicitly failing download GET. -/
theorem ledger_update_precedes_fetch (net : Net) :
    (∀ (j : Option Job) (s : RunSt),
      (download net j s).data = s.data ∧ (download net j s).updated = s.updated) ∧
    (∀ (st : RunSt) (u f dom : String) (v : Json),
      hostOf u = some dom → variantOfHost dom = Variant.marketplace →
      (net (spigetMetaUrl (resourceOf u))).ok = true →
      (net (spigetMetaUrl (resourceOf u))).body.sub "id" = Except.ok v →
      pyGet st.data f ≠ some v →
      (net (spigetDlUrl (resourceOf u) v)).ok = false →
      processEntry net u (FileSpec.name f) st =
        ({ st with
            data := pySet st.data f v
            updated := st.updated + 1
            total := st.total + 1
            evs := st.evs ++ [Ev.httpGet (spigetMetaUrl (resourceOf u)),
              Ev.httpGet (spigetDlUrl (resourceOf u) v), Ev.logError f] }, none) ∧
      pyGet (processEntry net u (FileSpec.name f) st).1.data f = some v) ∧
    (∀ (st : RunSt) (u dom : String) (p0 : Int × String) (ps : List (Int × String))
        (bn : Json) (rr : Int → String),
      hostOf u = some dom → variantOfHost dom = Variant.ci →
      (net (jenkinsMetaUrl u)).ok = true →
      (net (jenkinsMetaUrl u)).body.sub "number" = Except.ok bn →
      (∀ p ∈ (p0 :: ps), artifactPath (net (jenkinsMetaUrl u)).body (JKey.idx p.1) =
        Except.ok (Json.str (rr p.1))) →
      pyGet st.data p0.2 ≠ some bn →
      (processEntry net u (FileSpec.indexed (p0 :: ps)) st).1.data =
        (p0 :: ps).foldl (fun d2 p => pySet d2 p.2 bn) st.data ∧
      (processEntry net u (FileSpec.indexed (p0 :: ps)) st).1.updated =
        st.updated + (p0 :: ps).length ∧
      (∀ p ∈ (p0 :: ps),
        pyGet (processEntry net u (FileSpec.indexed (p0 :: ps)) st).1.data p.2 = some bn)) ∧
    (∀ (st : RunSt) (u dom : String) (p0 : Int × String) (ps : List (Int × String))
        (rel : Json) (sg : Int → String),
      hostOf u = some dom → variantOfHost dom = Variant.sourceforge →
      (net (githubMetaUrl u)).ok = true →
      (net (githubMetaUrl u)).body.sub "id" = Except.ok rel →
      (∀ p ∈ (p0 :: ps), assetUrl (net (githubMetaUrl u)).body (JKey.idx p.1) =
        Except.ok (Json.str (sg p.1))) →
      pyGet st.data p0.2 ≠ some rel →
      (processEntry net u (FileSpec.indexed (p0 :: ps)) st).1.data =
        (p0 :: ps).foldl (fun d2 p => pySet d2 p.2 rel) st.data ∧
      (processEntry net u (FileSpec.indexed (p0 :: ps)) st).1.updated =
        st.updated + (p0 :: ps).length ∧
      (∀ p ∈ (p0 :: ps),
        pyGet (processEntry net u (FileSpec.indexed (p0 :: ps)) st).1.data p.2 = some rel)) := by
  refine ⟨fun j s => ⟨download_data net j s, download_updated net j s⟩, ?_, ?_, ?_⟩
  · intro st u f dom v hd hv hok hid hne hdl
    have hpe : processEntry net u (FileSpec.name f) st =
        ({ st with
            data := pySet st.data f v
            updated := st.updated + 1
            total := st.total + 1
            evs := st.evs ++ [Ev.httpGet (spigetMetaUrl (resourceOf u)),
              Ev.httpGet (spigetDlUrl (resourceOf u) v), Ev.logError f] }, none) := by
      simp only [processEntry, hd]
      rw [hv]
      rw [handleSpigot_changed net _ _ u f v hok hid hne]
      simp [applyR, download, dlLoop, hdl, FileSpec.size, FileSpec.pyStr]
    refine ⟨hpe, ?_⟩
    rw [hpe]
    exact pyGet_pySet_self st.data f v
  · intro st u dom p0 ps bn rr hd hv hok hnum hres hgate
    have hpe : processEntry net u (FileSpec.indexed (p0 :: ps)) st =
        (download net
          (some ((p0 :: ps).foldl (fun aa p =>
            pySet aa (jenkinsDlUrl u (Json.str (rr p.1))) (FileSpec.name p.2)) []))
          { st with
              data := (p0 :: ps).foldl (fun d2 p => pySet d2 p.2 bn) st.data
              updated := st.updated + (p0 :: ps).length
              total := st.total + (p0 :: ps).length
              evs := st.evs ++ [Ev.httpGet (jenkinsMetaUrl u)] }, none) := by
      simp only [processEntry, hd]
      rw [hv]
      rw [handleJenkins_changed net _ _ u p0 ps bn rr hok hnum hres hgate]
      rfl
    refine ⟨?_, ?_, ?_⟩
    · rw [hpe]
      exact download_data net _ _
    · rw [hpe]
      exact download_updated net _ _
    · intro p hp
      rw [hpe]
      rw [download_data net _ _]
      exact pyGet_foldl_hit bn (p0 :: ps) st.data p.2 ⟨p, hp, rfl⟩
  · intro st u dom p0 ps rel sg hd hv hok hid hres hgate
    have hpe : processEntry net u (FileSpec.indexed (p0 :: ps)) st =
        (download net
          (some ((p0 :: ps).foldl (fun aa p =>
            pySet aa (sg p.1) (FileSpec.name p.2)) []))
          { st with
              data := (p0 :: ps).foldl (fun d2 p => pySet d2 p.2 rel) st.data
              updated := st.updated + (p0 :: ps).length
              total := st.total + (p0 :: ps).length
              evs := st.evs ++ [Ev.httpGet (githubMetaUrl u)] }, none) := by
      simp only [processEntry, hd]
      rw [hv]
      rw [handleGithub_changed net _ _ u p0 ps rel sg hok hid hres hgate]
      rfl
    refine ⟨?_, ?_, ?_⟩
    · rw [hpe]
      exact download_data net _ _
    · rw [hpe]
      exact download_updated net _ _
    · intro p hp
      rw [hpe]
      rw [download_data net _ _]
      exact pyGet_foldl_hit rel (p0 :: ps) st.data p.2 ⟨p, hp, rfl⟩

/-- C9 witness: all three version-tracking variants at concrete entries with
an empty ledger — a spigot lookup at version 5 whose download GET fails, a
two-file jenkins build 42, and a two-asset github release 3: in each case
the state after the entry already maps the files to the new version. -/
theorem ledger_update_precedes_fetch_witness :
    pyGet (processEntry
        (fun q => if q = spigetMetaUrl "99"
          then (⟨true, Json.obj [("id", Json.num 5)], ""⟩ : HResp)
          else ⟨false, Json.num 0, ""⟩)
        "https://www.spigotmc.org/resources/x.99" (FileSpec.name "X.jar")
        ⟨[], 0, 0, 0, ⟨some (VFile.valid []), true, []⟩, []⟩).1.data "X.jar" =
      some (Json.num 5) ∧
    (processEntry
        (fun q => if q = jenkinsMetaUrl "https://ci.y.dev/job/E2"
          then (⟨true, Json.obj [("number", Json.num 42),
            ("artifacts", Json.arr [Json.obj [("relativePath", Json.str "pa")],
                                    Json.obj [("relativePath", Json.str "pb")]])], ""⟩ : HResp)
          else ⟨false, Json.num 0, ""⟩)
        "https://ci.y.dev/job/E2" (FileSpec.indexed [(0, "A2.jar"), (1, "B2.jar")])
        ⟨[], 0, 0, 0, ⟨some (VFile.valid []), true, []⟩, []⟩).1.updated = 0 + 2 ∧
    pyGet (processEntry
        (fun q => if q = jenkinsMetaUrl "https://ci.y.dev/job/E2"
          then (⟨true, Json.obj [("number", Json.num 42),
            ("artifacts", Json.arr [Json.obj [("relativePath", Json.str "pa")],
                                    Json.obj [("relativePath", Json.str "pb")]])], ""⟩ : HResp)
          else ⟨false, Json.num 0, ""⟩)
        "https://ci.y.dev/job/E2" (FileSpec.indexed [(0, "A2.jar"), (1, "B2.jar")])
        ⟨[], 0, 0, 0, ⟨some (VFile.valid []), true, []⟩, []⟩).1.data "B2.jar" =
      some (Json.num 42) ∧
    pyGet (processEntry
        (fun q => if q = githubMetaUrl "https://github.com/w/r"
          then (⟨true, Json.obj [("id", Json.num 3),
            ("assets", Json.arr [Json.obj [("browser_download_url", Json.str "ua")],
                                 Json.obj [("browser_download_url", Json.str "ub")]])], ""⟩ : HResp)
          else ⟨false, Json.num 0, ""⟩)
        "https://github.com/w/r" (FileSpec.indexed [(0, "G1.jar"), (1, "G2.jar")])
        ⟨[], 0, 0, 0, ⟨some (VFile.valid []), true, []⟩, []⟩).1.data "G2.jar" =
      some (Json.num 3) := by
  refine ⟨?_, ?_, ?_, ?_⟩
  · exact ((ledger_update_precedes_fetch
      (fun q => if q = spigetMetaUrl "99"
        then (⟨true, Json.obj [("id", Json.num 5)], ""⟩ : HResp)
        else ⟨false, Json.num 0, ""⟩)).2.1
      ⟨[], 0, 0, 0, ⟨some (VFile.valid []), true, []⟩, []⟩
      "https://www.spigotmc.org/resources/x.99" "X.jar" "www.spigotmc.org" (Json.num 5)
      rfl rfl rfl rfl (by simp [pyGet]) rfl).2
  · exact ((ledger_update_precedes_fetch
      (fun q => if q = jenkinsMetaUrl "https://ci.y.dev/job/E2"
        then (⟨true, Json.obj [("number", Json.num 42),
          ("artifacts", Json.arr [Json.obj [("relativePath", Json.str "pa")],
                                  Json.obj [("relativePath", Json.str "pb")]])], ""⟩ : HResp)
        else ⟨false, Json.num 0, ""⟩)).2.2.1
      ⟨[], 0, 0, 0, ⟨some (VFile.valid []), true, []⟩, []⟩
      "https://ci.y.dev/job/E2" "ci.y.dev" (0, "A2.jar") [(1, "B2.jar")] (Json.num 42)
      (fun i => if i = 0 then "pa" else "pb")
      rfl rfl rfl rfl (by intro p hp; fin_cases hp <;> rfl) (by simp [pyGet])).2.1
  · exact ((ledger_update_precedes_fetch
      (fun q => if q = jenkinsMetaUrl "https://ci.y.dev/job/E2"
        then (⟨true, Json.obj [("number", Json.num 42),
          ("artifacts", Json.arr [Json.obj [("relativePath", Json.str "pa")],
                                  Json.obj [("relativePath", Json.str "pb")]])], ""⟩ : HResp)
        else ⟨false, Json.num 0, ""⟩)).2.2.1
      ⟨[], 0, 0, 0, ⟨some (VFile.valid []), true, []⟩, []⟩
      "https://ci.y.dev/job/E2" "ci.y.dev" (0, "A2.jar") [(1, "B2.jar")] (Json.num 42)
      (fun i => if i = 0 then "pa" else "pb")
      rfl rfl rfl rfl (by intro p hp; fin_cases hp <;> rfl) (by simp [pyGet])).2.2
      (1, "B2.jar") (by simp)
  · exact ((ledger_update_precedes_fetch
      (fun q => if q = githubMetaUrl "https://github.com/w/r"
        then (⟨true, Json.obj [("id", Json.num 3),
          ("assets", Json.arr [Json.obj [("browser_download_url", Json.str "ua")],
                               Json.obj [("browser_download_url", Json.str "ub")]])], ""⟩ : HResp)
        else ⟨false, Json.num 0, ""⟩)).2.2.2
      ⟨[], 0, 0, 0, ⟨some (VFile.valid []), true, []⟩, []⟩
      "https://github.com/w/r" "github.com" (0, "G1.jar") [(1, "G2.jar")] (Json.num 3)
      (fun i => if i = 0 then "ua" else "ub")
      rfl rfl rfl rfl (by intro p hp; fin_cases hp <;> rfl) (by simp [pyGet])).2.2
      (1, "G2.jar") (by simp)

/-- Python list indexing beyond the end raises IndexError. -/
theorem subIdx_oob (arts : List Json) (i : Int) (h : (arts.length : Int) ≤ i) :
    Json.subIdx (Json.arr arts) i = Except.error PyErr.indexError := by
  have hi0 : ¬ i < 0 := by omega
  simp only [Json.subIdx, if_neg hi0]
  rw [dif_neg]
  omega

/-- An out-of-range fileSpec key makes the artifact path lookup raise. -/
theorem artifactPath_oob (body : Json) (arts : List Json) (i : Int)
    (harts : body.sub "artifacts" = Except.ok (Json.arr arts))
    (h : (arts.length : Int) ≤ i) :
    artifactPath body (JKey.idx i) = Except.error PyErr.indexError := by
  simp only [artifactPath]
  rw [harts]
  simp only [Json.subKey]
  rw [subIdx_oob arts i h]

/-- An out-of-range fileSpec key makes the asset lookup raise. -/
theorem assetUrl_oob (body : Json) (asts : List Json) (i : Int)
    (hasts : body.sub "assets" = Except.ok (Json.arr asts))
    (h : (asts.length : Int) ≤ i) :
    assetUrl body (JKey.idx i) = Except.error PyErr.indexError := by
  simp only [assetUrl]
  rw [hasts]
  simp only [Json.subKey]
  rw [subIdx_oob asts i h]

/-- C10 (confirmed): when a change is detected, the continuous-integration
and source-forge loops index the response's artifact/asset list at each
fileSpec key with no bounds check: whatever the position of the offending
pair — also after in-range pairs, as in a fileSpec with indices 0 and 7 —
a key at or beyond the list length makes resolution raise IndexError
instead of returning empty-result, keeping the ledger writes and counter
increments already made for the earlier pairs; and the exception is not
contained at the entry level as a recoverable skip: it escapes the loop and
stops the run, whatever entries follow. -/
theorem unguarded_artifact_index (net : Net) :
    (∀ (dd : Ledger) (uu : Nat) (u f rep : String) (bn : Json) (arts : List Json) (i : Int)
        (pre rest : List (Int × String)) (rr : Int → String),
      (net (jenkinsMetaUrl u)).ok = true →
      (net (jenkinsMetaUrl u)).body.sub "number" = Except.ok bn →
      (net (jenkinsMetaUrl u)).body.sub "artifacts" = Except.ok (Json.arr arts) →
      (∀ p ∈ pre, artifactPath (net (jenkinsMetaUrl u)).body (JKey.idx p.1) =
        Except.ok (Json.str (rr p.1))) →
      (arts.length : Int) ≤ i →
      FileSpec.firstVal (FileSpec.indexed (pre ++ (i, f) :: rest)) = Except.ok rep →
      pyGet dd rep ≠ some bn →
      handleJenkins net dd uu u (FileSpec.indexed (pre ++ (i, f) :: rest)) =
        ⟨Except.error PyErr.indexError, pre.foldl (fun d2 p => pySet d2 p.2 bn) dd,
          uu + pre.length, [Ev.httpGet (jenkinsMetaUrl u)]⟩) ∧
    (∀ (dd : Ledger) (uu : Nat) (u f rep : String) (rel : Json) (asts : List Json) (i : Int)
        (pre rest : List (Int × String)) (sg : Int → String),
      (net (githubMetaUrl u)).ok = true →
      (net (githubMetaUrl u)).body.sub "id" = Except.ok rel →
      (net (githubMetaUrl u)).body.sub "assets" = Except.ok (Json.arr asts) →
      (∀ p ∈ pre, assetUrl (net (githubMetaUrl u)).body (JKey.idx p.1) =
        Except.ok (Json.str (sg p.1))) →
      (asts.length : Int) ≤ i →
      FileSpec.firstVal (FileSpec.indexed (pre ++ (i, f) :: rest)) = Except.ok rep →
      pyGet dd rep ≠ some rel →
      handleGithub net dd uu u (FileSpec.indexed (pre ++ (i, f) :: rest)) =
        ⟨Except.error PyErr.indexError, pre.foldl (fun d2 p => pySet d2 p.2 rel) dd,
          uu + pre.length, [Ev.httpGet (githubMetaUrl u)]⟩) ∧
    (∀ (st : RunSt) (u f rep dom : String) (bn : Json) (arts : List Json) (i : Int)
        (pre rest : List (Int × String)) (rr : Int → String) (others : List Entry),
      hostOf u = some dom → variantOfHost dom = Variant.ci →
      (net (jenkinsMetaUrl u)).ok = true →
      (net (jenkinsMetaUrl u)).body.sub "number" = Except.ok bn →
      (net (jenkinsMetaUrl u)).body.sub "artifacts" = Except.ok (Json.arr arts) →
      (∀ p ∈ pre, artifactPath (net (jenkinsMetaUrl u)).body (JKey.idx p.1) =
        Except.ok (Json.str (rr p.1))) →
      (arts.length : Int) ≤ i →
      FileSpec.firstVal (FileSpec.indexed (pre ++ (i, f) :: rest)) = Except.ok rep →
      pyGet st.data rep ≠ some bn →
      runLoop net (⟨EUrl.str u, FileSpec.indexed (pre ++ (i, f) :: rest)⟩ :: others) none st =
        ({ st with
            data := pre.foldl (fun d2 p => pySet d2 p.2 bn) st.data
            updated := st.updated + pre.length
            total := st.total + (pre ++ (i, f) :: rest).length
            evs := st.evs ++ [Ev.httpGet (jenkinsMetaUrl u)] },
          Stop.excRaised PyErr.indexError)) ∧
    (∀ (st : RunSt) (u f rep dom : String) (rel : Json) (asts : List Json) (i : Int)
        (pre rest : List (Int × String)) (sg : Int → String) (others : List Entry),
      hostOf u = some dom → variantOfHost dom = Variant.sourceforge →
      (net (githubMetaUrl u)).ok = true →
      (net (githubMetaUrl u)).body.sub "id" = Except.ok rel →
      (net (githubMetaUrl u)).body.sub "assets" = Except.ok (Json.arr asts) →
      (∀ p ∈ pre, assetUrl (net (githubMetaUrl u)).body (JKey.idx p.1) =
        Except.ok (Json.str (sg p.1))) →
      (asts.length : Int) ≤ i →
      FileSpec.firstVal (FileSpec.indexed (pre ++ (i, f) :: rest)) = Except.ok rep →
      pyGet st.data rep ≠ some rel →
      runLoop net (⟨EUrl.str u, FileSpec.indexed (pre ++ (i, f) :: rest)⟩ :: others) none st =
        ({ st with
            data := pre.foldl (fun d2 p => pySet d2 p.2 rel) st.data
            updated := st.updated + pre.length
            total := st.total + (pre ++ (i, f) :: rest).length
            evs := st.evs ++ [Ev.httpGet (githubMetaUrl u)] },
          Stop.excRaised PyErr.indexError)) := by
  have hj : ∀ (dd : Ledger) (uu : Nat) (u f rep : String) (bn : Json) (arts : List Json)
      (i : Int) (pre rest : List (Int × String)) (rr : Int → String),
      (net (jenkinsMetaUrl u)).ok = true →
      (net (jenkinsMetaUrl u)).body.sub "number" = Except.ok bn →
      (net (jenkinsMetaUrl u)).body.sub "artifacts" = Except.ok (Json.arr arts) →
      (∀ p ∈ pre, artifactPath (net (jenkinsMetaUrl u)).body (JKey.idx p.1) =
        Except.ok (Json.str (rr p.1))) →
      (arts.length : Int) ≤ i →
      FileSpec.firstVal (FileSpec.indexed (pre ++ (i, f) :: rest)) = Except.ok rep →
      pyGet dd rep ≠ some bn →
      handleJenkins net dd uu u (FileSpec.indexed (pre ++ (i, f) :: rest)) =
        ⟨Except.error PyErr.indexError, pre.foldl (fun d2 p => pySet d2 p.2 bn) dd,
          uu + pre.length, [Ev.httpGet (jenkinsMetaUrl u)]⟩ := by
    intro dd uu u f rep bn arts i pre rest rr hok hnum harts hres hlen hrep hgate
    have hne : pyNeq (pyGet dd rep) bn = true := (pyNeq_true_iff _ _).mpr hgate
    simp only [handleJenkins, hok, if_true]
    rw [hnum, hrep]
    simp only [FileSpec.items, List.map_append, List.map_cons]
    rw [hne]
    simp only [eq_self_iff_true, if_true]
    rw [jenkinsLoop_append]
    rw [jenkinsLoop_resolved u _ bn rr pre dd uu [] hres]
    simp only [jenkinsLoop]
    rw [artifactPath_oob _ arts i harts hlen]
  have hg : ∀ (dd : Ledger) (uu : Nat) (u f rep : String) (rel : Json) (asts : List Json)
      (i : Int) (pre rest : List (Int × String)) (sg : Int → String),
      (net (githubMetaUrl u)).ok = true →
      (net (githubMetaUrl u)).body.sub "id" = Except.ok rel →
      (net (githubMetaUrl u)).body.sub "assets" = Except.ok (Json.arr asts) →
      (∀ p ∈ pre, assetUrl (net (githubMetaUrl u)).body (JKey.idx p.1) =
        Except.ok (Json.str (sg p.1))) →
      (asts.length : Int) ≤ i →
      FileSpec.firstVal (FileSpec.indexed (pre ++ (i, f) :: rest)) = Except.ok rep →
      pyGet dd rep ≠ some rel →
      handleGithub net dd uu u (FileSpec.indexed (pre ++ (i, f) :: rest)) =
        ⟨Except.error PyErr.indexError, pre.foldl (fun d2 p => pySet d2 p.2 rel) dd,
          uu + pre.length, [Ev.httpGet (githubMetaUrl u)]⟩ := by
    intro dd uu u f rep rel asts i pre rest sg hok hid hasts hres hlen hrep hgate
    have hne : pyNeq (pyGet dd rep) rel = true := (pyNeq_true_iff _ _).mpr hgate
    simp only [handleGithub, hok, if_true]
    rw [hid, hrep]
    simp only [FileSpec.items, List.map_append, List.map_cons]
    rw [hne]
    simp only [eq_self_iff_true, if_true]
    rw [githubLoop_append]
    rw [githubLoop_resolved rel _ sg pre dd uu [] hres]
    simp only [githubLoop]
    rw [assetUrl_oob _ asts i hasts hlen]
  refine ⟨hj, hg, ?_, ?_⟩
  · intro st u f rep dom bn arts i pre rest rr others hd hv hok hnum harts hres hlen hrep hgate
    have hb : (none : Option Nat) ≠ some 0 := by simp
    simp only [runLoop, if_neg hb]
    have hpe : processEntry net u (FileSpec.indexed (pre ++ (i, f) :: rest)) st =
        ({ st with
            data := pre.foldl (fun d2 p => pySet d2 p.2 bn) st.data
            updated := st.updated + pre.length
            total := st.total + (pre ++ (i, f) :: rest).length
            evs := st.evs ++ [Ev.httpGet (jenkinsMetaUrl u)] }, some PyErr.indexError) := by
      simp only [processEntry, hd]
      rw [hv]
      rw [hj _ _ u f rep bn arts i pre rest rr hok hnum harts hres hlen hrep hgate]
      rfl
    rw [hpe]
  · intro st u f rep dom rel asts i pre rest sg others hd hv hok hid hasts hres hlen hrep hgate
    have hb : (none : Option Nat) ≠ some 0 := by simp
    simp only [runLoop, if_neg hb]
    have hpe : processEntry net u (FileSpec.indexed (pre ++ (i, f) :: rest)) st =
        ({ st with
            data := pre.foldl (fun d2 p => pySet d2 p.2 rel) st.data
            updated := st.updated + pre.length
            total := st.total + (pre ++ (i, f) :: rest).length
            evs := st.evs ++ [Ev.httpGet (githubMetaUrl u)] }, some PyErr.indexError) := by
      simp only [processEntry, hd]
      rw [hv]
      rw [hg _ _ u f rep rel asts i pre rest sg hok hid hasts hres hlen hrep hgate]
      rfl
    rw [hpe]

/-- C10 witness: the repository's EssentialsX-like fileSpec shape with
indices 0 and 7 against a one-artifact CI response — the in-range pair is
recorded in the ledger, then index 7 raises IndexError — and a one-asset
source-forge response with the same shape. -/
theorem unguarded_artifact_index_witness :
    handleJenkins
        (fun q => if q = jenkinsMetaUrl "https://ci.x.dev/job/a"
          then (⟨true, Json.obj [("number", Json.num 7),
            ("artifacts", Json.arr [Json.obj [("relativePath", Json.str "p0")]])], ""⟩ : HResp)
          else ⟨false, Json.num 0, ""⟩)
        [] 0 "https://ci.x.dev/job/a" (FileSpec.indexed [(0, "E.jar"), (7, "ES.jar")]) =
      ⟨Except.error PyErr.indexError, [("E.jar", Json.num 7)], 1,
        [Ev.httpGet (jenkinsMetaUrl "https://ci.x.dev/job/a")]⟩ ∧
    handleGithub
        (fun q => if q = githubMetaUrl "https://github.com/o/r"
          then (⟨true, Json.obj [("id", Json.num 3),
            ("assets", Json.arr [Json.obj [("browser_download_url", Json.str "u0")]])], ""⟩ : HResp)
          else ⟨false, Json.num 0, ""⟩)
        [] 0 "https://github.com/o/r" (FileSpec.indexed [(0, "G.jar"), (7, "H.jar")]) =
      ⟨Except.error PyErr.indexError, [("G.jar", Json.num 3)], 1,
        [Ev.httpGet (githubMetaUrl "https://github.com/o/r")]⟩ := by
  constructor
  · exact (unguarded_artifact_index
      (fun q => if q = jenkinsMetaUrl "https://ci.x.dev/job/a"
        then (⟨true, Json.obj [("number", Json.num 7),
          ("artifacts", Json.arr [Json.obj [("relativePath", Json.str "p0")]])], ""⟩ : HResp)
        else ⟨false, Json.num 0, ""⟩)).1
      [] 0 "https://ci.x.dev/job/a" "ES.jar" "E.jar" (Json.num 7)
      [Json.obj [("relativePath", Json.str "p0")]] 7 [(0, "E.jar")] []
      (fun i => "p0")
      rfl rfl rfl (by intro p hp; fin_cases hp; rfl) (by decide) rfl (by simp [pyGet])
  · exact (unguarded_artifact_index
      (fun q => if q = githubMetaUrl "https://github.com/o/r"
        then (⟨true, Json.obj [("id", Json.num 3),
          ("assets", Json.arr [Json.obj [("browser_download_url", Json.str "u0")]])], ""⟩ : HResp)
        else ⟨false, Json.num 0, ""⟩)).2.1
      [] 0 "https://github.com/o/r" "H.jar" "G.jar" (Json.num 3)
      [Json.obj [("browser_download_url", Json.str "u0")]] 7 [(0, "G.jar")] []
      (fun i => "u0")
      rfl rfl rfl (by intro p hp; fin_cases hp; rfl) (by decide) rfl (by simp [pyGet])

/-- C2 counterexample: a CI entry with two fileSpec pairs whose artifacts
share one relativePath: both ledger records are written and updated rises by
two, but the job — a dict keyed by URL — collapses to a single entry (the
later pair overwrote the earlier one), so there is not exactly one job entry
per pair as the claim states. -/
theorem jenkins_resolution_counter :
    handleJenkins
      (fun q => if q = jenkinsMetaUrl "https://ci.x.dev/job/A"
        then (⟨true, Json.obj [("number", Json.num 42),
          ("artifacts", Json.arr [Json.obj [("relativePath", Json.str "p")],
                                  Json.obj [("relativePath", Json.str "p")]])], ""⟩ : HResp)
        else ⟨false, Json.num 0, ""⟩)
      [] 0 "https://ci.x.dev/job/A" (FileSpec.indexed [(0, "A.jar"), (1, "B.jar")]) =
    ⟨Except.ok (some [(jenkinsDlUrl "https://ci.x.dev/job/A" (Json.str "p"),
        FileSpec.name "B.jar")]),
      [("A.jar", Json.num 42), ("B.jar", Json.num 42)], 2,
      [Ev.httpGet (jenkinsMetaUrl "https://ci.x.dev/job/A")]⟩ ∧
    ([(jenkinsDlUrl "https://ci.x.dev/job/A" (Json.str "p"), FileSpec.name "B.jar")] : Job).length ≠
      ([(0, "A.jar"), (1, "B.jar")] : List (Int × String)).length :=
  ⟨rfl, by decide⟩

/-- C2 (corrected): for a CI entry whose metadata query succeeds, change
detection compares the ledger's value for the filename of the first fileSpec
pair against the build number; if equal the resolver returns None with no
ledger change; if different, every pair's filename is recorded at the build
number and updated rises once per pair — and provided the constructed
artifact URLs of the pairs are pairwise distinct, the job holds exactly one
entry per pair (URL at that pair's index mapped to its filename); colliding
URLs merge because the job is a dict keyed by URL. -/
theorem jenkins_resolution (net : Net) (dd : Ledger) (uu : Nat) (u : String)
    (p0 : Int × String) (ps : List (Int × String)) (bn : Json) (ρ : Int → String)
    (hok : (net (jenkinsMetaUrl u)).ok = true)
    (hnum : (net (jenkinsMetaUrl u)).body.sub "number" = Except.ok bn)
    (hres : ∀ p ∈ (p0 :: ps), artifactPath (net (jenkinsMetaUrl u)).body (JKey.idx p.1) =
      Except.ok (Json.str (ρ p.1))) :
    (pyGet dd p0.2 = some bn →
      handleJenkins net dd uu u (FileSpec.indexed (p0 :: ps)) =
        ⟨Except.ok none, dd, uu, [Ev.httpGet (jenkinsMetaUrl u)]⟩) ∧
    (pyGet dd p0.2 ≠ some bn →
      handleJenkins net dd uu u (FileSpec.indexed (p0 :: ps)) =
        ⟨Except.ok (some ((p0 :: ps).foldl (fun aa p =>
            pySet aa (jenkinsDlUrl u (Json.str (ρ p.1))) (FileSpec.name p.2)) [])),
          (p0 :: ps).foldl (fun d2 p => pySet d2 p.2 bn) dd, uu + (p0 :: ps).length,
          [Ev.httpGet (jenkinsMetaUrl u)]⟩ ∧
      (∀ p ∈ (p0 :: ps),
        pyGet ((p0 :: ps).foldl (fun d2 p2 => pySet d2 p2.2 bn) dd) p.2 = some bn) ∧
      (((p0 :: ps).map (fun p => jenkinsDlUrl u (Json.str (ρ p.1)))).Nodup →
        (p0 :: ps).foldl (fun aa p =>
            pySet aa (jenkinsDlUrl u (Json.str (ρ p.1))) (FileSpec.name p.2)) [] =
          (p0 :: ps).map (fun p => (jenkinsDlUrl u (Json.str (ρ p.1)), FileSpec.name p.2)))) := by
  constructor
  · intro heq
    have hne : pyNeq (pyGet dd p0.2) bn = false := (pyNeq_false_iff _ _).mpr heq
    simp only [handleJenkins, hok, if_true]
    rw [hnum]
    simp only [FileSpec.firstVal]
    rw [hne]
    simp
  · intro hdiff
    have hne : pyNeq (pyGet dd p0.2) bn = true := (pyNeq_true_iff _ _).mpr hdiff
    refine ⟨?_, ?_, ?_⟩
    · simp only [handleJenkins, hok, if_true]
      rw [hnum]
      simp only [FileSpec.firstVal]
      rw [hne]
      simp only [FileSpec.items]
      rw [jenkinsLoop_resolved u _ bn ρ (p0 :: ps) dd uu [] hres]
      simp
    · intro p hp
      exact pyGet_foldl_hit bn (p0 :: ps) dd p.2 ⟨p, hp, rfl⟩
    · intro hnd
      exact foldl_pySet_fresh (fun p => jenkinsDlUrl u (Json.str (ρ p.1)))
        (fun p => FileSpec.name p.2) (p0 :: ps) [] (fun g hg => rfl) hnd

/-- C2 witness: the spec's scenario — fileSpec with indices 0 and 1, no
ledger record for the first file, build 42 and two distinct artifacts: two
job entries, both ledger records at 42, updated counter 2. -/
theorem jenkins_resolution_witness :
    pyGet ([] : Ledger) "A.jar" ≠ some (Json.num 42) ∧
    handleJenkins
        (fun q => if q = jenkinsMetaUrl "https://ci.y.dev/job/E"
          then (⟨true, Json.obj [("number", Json.num 42),
            ("artifacts", Json.arr [Json.obj [("relativePath", Json.str "pa")],
                                    Json.obj [("relativePath", Json.str "pb")]])], ""⟩ : HResp)
          else ⟨false, Json.num 0, ""⟩)
        [] 0 "https://ci.y.dev/job/E" (FileSpec.indexed [(0, "A.jar"), (1, "B.jar")]) =
      ⟨Except.ok (some ([(0, "A.jar"), (1, "B.jar")].foldl (fun aa p =>
          pySet aa (jenkinsDlUrl "https://ci.y.dev/job/E"
            (Json.str (if p.1 = 0 then "pa" else "pb"))) (FileSpec.name p.2)) [])),
        [(0, "A.jar"), (1, "B.jar")].foldl (fun d2 p => pySet d2 p.2 (Json.num 42)) [],
        0 + 2, [Ev.httpGet (jenkinsMetaUrl "https://ci.y.dev/job/E")]⟩ ∧
    ([(0, "A.jar"), (1, "B.jar")].foldl (fun aa p =>
        pySet aa (jenkinsDlUrl "https://ci.y.dev/job/E"
          (Json.str (if p.1 = 0 then "pa" else "pb"))) (FileSpec.name p.2)) [] : Job).length = 2 ∧
    pyGet ([(0, "A.jar"), (1, "B.jar")].foldl
      (fun d2 p => pySet d2 p.2 (Json.num 42)) ([] : Ledger)) "A.jar" = some (Json.num 42) ∧
    pyGet ([(0, "A.jar"), (1, "B.jar")].foldl
      (fun d2 p => pySet d2 p.2 (Json.num 42)) ([] : Ledger)) "B.jar" = some (Json.num 42) := by
  have h := jenkins_resolution
    (fun q => if q = jenkinsMetaUrl "https://ci.y.dev/job/E"
      then (⟨true, Json.obj [("number", Json.num 42),
        ("artifacts", Json.arr [Json.obj [("relativePath", Json.str "pa")],
                                Json.obj [("relativePath", Json.str "pb")]])], ""⟩ : HResp)
      else ⟨false, Json.num 0, ""⟩)
    [] 0 "https://ci.y.dev/job/E" (0, "A.jar") [(1, "B.jar")] (Json.num 42)
    (fun i => if i = 0 then "pa" else "pb") rfl rfl ?hres
  case hres =>
    intro p hp
    fin_cases hp <;> rfl
  have hgate : pyGet ([] : Ledger) "A.jar" ≠ some (Json.num 42) := by simp [pyGet]
  have h2 := h.2 hgate
  refine ⟨hgate, h2.1, ?_, ?_, ?_⟩
  · rfl
  · exact h2.2.1 (0, "A.jar") (by simp)
  · exact h2.2.1 (1, "B.jar") (by simp)

end PluginUpdaterModel
